import Mathlib

/-!
Verification development for the Mython interpreter (cpp-mython).

The definitions below are a shallow embedding of the C++ sources:
  * `runtime.cpp` / `runtime.h`  — value model, classes, instances,
    truthiness and the comparison primitives;
  * `statement.cpp` / `statement.h` — the executable AST nodes;
  * `lexer.cpp` / `lexer.h` — the token model and the lexer.

Machine `int` is modelled by `Int` (no claim touches overflow), C++
truncating integer division by `Int.div` / `Int.tdiv`-style reasoning,
`std::unordered_map` by an association list with insert-or-overwrite
(`assocIns`): only `operator[]`, `count`/`at` and iteration over a fixed
key set are used by the source, all of which are order-insensitive.
Shared mutable `ClassInstance` objects live in an explicit heap
(`EvalState.insts`) and are referred to by index, mirroring the
shared-pointer aliasing of `ObjectHolder::Share`.  C++ exceptions
(`std::runtime_error`, `ReturnException`) become explicit result
constructors, and possible non-termination of the tree-walking
evaluator is handled by a fuel parameter (`.timeout` marks exhaustion;
every concrete run below uses ample fuel).
-/

namespace Mython

/-! ## Association lists: the `std::unordered_map` operations used by the source -/

/-- Insert-or-overwrite, the effect of `map[k] = v`. -/
def assocIns {α : Type} (m : List (String × α)) (k : String) (v : α) :
    List (String × α) :=
  if m.any (fun p => p.1 == k) then
    m.map (fun p => if p.1 == k then (k, v) else p)
  else
    m ++ [(k, v)]

/-- Lookup, the effect of `map.count(k) ? map.at(k) : nullptr` / `map.find`. -/
def assocGet {α : Type} (m : List (String × α)) (k : String) : Option α :=
  match m with
  | [] => Option.none
  | (k', v) :: r => if k' == k then some v else assocGet r k

/-! ## The AST (`statement.h`), methods and classes (`runtime.h`) -/

/-- Comparator choice for an `ast::Comparison` node: which of the six
`runtime` comparison functions the parser installed as `cmp_`. -/
inductive CmpOp where
  | eq | ne | lt | gt | le | ge
deriving DecidableEq, Repr

mutual
/-- Executable AST nodes of `statement.h`.  `newInstance` carries the heap
reference of the node's member `ClassInstance class_inst_` (the C++ node
owns one instance, constructed together with the node). -/
inductive Stmt where
  | numConst (n : Int)
  | strConst (v : String)
  | boolConst (b : Bool)
  | noneConst
  | variableValue (ids : List String)
  | assignment (var : String) (rv : Stmt)
  | fieldAssignment (ids : List String) (field : String) (rv : Stmt)
  | compound (stmts : List Stmt)
  | ifElse (cond : Stmt) (thenS : Stmt) (elseS : Option Stmt)
  | methodBody (body : Stmt)
  | methodCall (obj : Stmt) (name : String) (args : List Stmt)
  | newInstance (ref : Nat) (args : List Stmt)
  | printStmt (args : List Stmt)
  | retStmt (e : Stmt)
  | notStmt (e : Stmt)
  | stringify (e : Stmt)
  | addStmt (l r : Stmt)
  | subStmt (l r : Stmt)
  | multStmt (l r : Stmt)
  | divStmt (l r : Stmt)
  | andStmt (l r : Stmt)
  | orStmt (l r : Stmt)
  | comparison (op : CmpOp) (l r : Stmt)
  | classDefinition (c : Cls)

/-- A `runtime::Class`: name, own method list, and the precomputed
method-resolution map `name_to_method_` (built by `mkClass`). -/
inductive Cls where
  | mk (name : String) (methods : List Mthd) (resolved : List (String × Mthd))

/-- A `runtime::Method`: name, formal parameters, executable body. -/
inductive Mthd where
  | mk (name : String) (formals : List String) (body : Stmt)
end

def Cls.name : Cls → String
  | .mk n _ _ => n

def Cls.methods : Cls → List Mthd
  | .mk _ ms _ => ms

def Cls.resolved : Cls → List (String × Mthd)
  | .mk _ _ r => r

def Mthd.name : Mthd → String
  | .mk n _ _ => n

def Mthd.formals : Mthd → List String
  | .mk _ f _ => f

def Mthd.body : Mthd → Stmt
  | .mk _ _ b => b

/-- Folding `name_to_method_[method.name] = &method` over a method list, the
two loops of the `runtime::Class` constructor. -/
def buildMap (init : List (String × Mthd)) (ms : List Mthd) :
    List (String × Mthd) :=
  ms.foldl (fun m meth => assocIns m meth.name meth) init

/-- The `runtime::Class` constructor (runtime.cpp:54-66): if a parent is
given, first insert the entries of the parent's own `methods_` vector, then
overlay the class's own methods. -/
def mkClass (name : String) (methods : List Mthd) (parent : Option Cls) : Cls :=
  let base : List (String × Mthd) :=
    match parent with
    | some p => buildMap [] p.methods
    | Option.none => []
  .mk name methods (buildMap base methods)

/-- `runtime::Class::GetMethod` (runtime.cpp:68-70). -/
def getMethod (c : Cls) (name : String) : Option Mthd :=
  assocGet c.resolved name

/-- `runtime::ClassInstance::HasMethod` (runtime.cpp:86-90). -/
def hasMethod (c : Cls) (name : String) (argumentCount : Nat) : Bool :=
  match getMethod c name with
  | some m => m.formals.length == argumentCount
  | Option.none => false

/-! ## Runtime values, heap and state -/

/-- What an `ObjectHolder` can refer to.  `Value.none` is the empty holder;
`inst r` is a shared reference to heap cell `r`. -/
inductive Value where
  | none
  | num (n : Int)
  | str (v : String)
  | bool (b : Bool)
  | cls (c : Cls)
  | inst (r : Nat)

/-- A `runtime::Closure`: name-to-holder map. -/
abbrev Closure := List (String × Value)

/-- A live `runtime::ClassInstance`: its class and mutable field closure. -/
structure Inst where
  cls : Cls
  fields : Closure

/-- Mutable execution state: the instance heap (one cell per C++
`ClassInstance` object, all pre-allocated with the AST since only
`NewInstance` node construction creates instances) and the text already
written to the `Context` output stream. -/
structure EvalState where
  insts : List Inst
  out : String

def getInst (s : EvalState) (r : Nat) : Option Inst :=
  s.insts[r]?

def pushOut (s : EvalState) (t : String) : EvalState :=
  ⟨s.insts, s.out ++ t⟩

/-- Abstraction of `os << this` for an instance without `__str__`: the C++
code prints the object's address; the model prints its heap reference,
which likewise identifies the object uniquely. -/
def addrString (r : Nat) : String :=
  "0x" ++ toString r

/-- `runtime::IsTrue` (runtime.cpp:130-147). -/
def isTrue (v : Value) : Bool :=
  match v with
  | .bool b => b
  | .num n => n != 0
  | .str s => s != ""
  | _ => false

/-- `ast::VariableValue::Execute` (statement.cpp:23-46): walk the dotted
path, reading fields of class instances through the heap. -/
def varWalk (ids : List String) (c : Closure) (s : EvalState) :
    Except String Value :=
  match ids with
  | [] => .error "UB: empty dotted id list"
  | [v] =>
    match assocGet c v with
    | Option.none => .error "var is not found"
    | some x => .ok x
  | v :: rest =>
    match assocGet c v with
    | Option.none => .error "var is not found"
    | some x =>
      match x with
      | .inst r =>
        match getInst s r with
        | some i => varWalk rest i.fields s
        | Option.none => .error "UB: dangling instance"
      | _ => .ok x

/-! ## Result types

`XRes` is the outcome of `Statement::Execute` as seen by a frame that holds
the (by-reference) closure: normal value, in-flight `ReturnException`,
`std::runtime_error`, or fuel exhaustion.  `FRes` is the outcome of an
operation that does not share the caller's closure (`ClassInstance::Call`,
`Equal`, `Less`, `Object::Print`). -/

inductive XRes where
  | ok (v : Value) (c : Closure) (s : EvalState)
  | ret (v : Value) (c : Closure) (s : EvalState)
  | err (m : String)
  | timeout

inductive FRes (α : Type) where
  | ok (a : α) (s : EvalState)
  | ret (v : Value) (c : Closure) (s : EvalState)
  | err (m : String)
  | timeout

/-- Outcome of evaluating an actual-argument list within a frame. -/
inductive ARes where
  | ok (vs : List Value) (c : Closure) (s : EvalState)
  | ret (v : Value) (c : Closure) (s : EvalState)
  | err (m : String)
  | timeout

/-- Bind the `self` and formal parameters into the fresh method closure
(runtime.cpp:100-106). -/
def bindParams (formals : List String) (args : List Value) (r : Nat) : Closure :=
  (formals.zip args).foldl (fun c p => assocIns c p.1 p.2)
    (assocIns [] "self" (.inst r))

mutual

/-- Execute one AST node (the `Execute` overrides of statement.cpp). -/
def exec : Nat → Stmt → Closure → EvalState → XRes
  | 0, _, _, _ => .timeout
  | fuel + 1, st, c, s =>
    match st with
    | .numConst n => .ok (.num n) c s
    | .strConst v => .ok (.str v) c s
    | .boolConst b => .ok (.bool b) c s
    | .noneConst => .ok .none c s
    | .variableValue ids =>
      match varWalk ids c s with
      | .ok v => .ok v c s
      | .error m => .err m
    | .assignment var rv =>
      match exec fuel rv c s with
      | .ok v c' s' => .ok v (assocIns c' var v) s'
      | .ret v c' s' => .ret v c' s'
      | .err m => .err m
      | .timeout => .timeout
    | .fieldAssignment ids field rv =>
      match varWalk ids c s with
      | .error m => .err m
      | .ok obj =>
        match obj with
        | .inst r =>
          match exec fuel rv c s with
          | .ok v c' s' =>
            match getInst s' r with
            | some i =>
              .ok v c' ⟨s'.insts.set r ⟨i.cls, assocIns i.fields field v⟩, s'.out⟩
            | Option.none => .err "UB: dangling instance"
          | .ret v c' s' => .ret v c' s'
          | .err m => .err m
          | .timeout => .timeout
        | _ => .err "UB: field assignment target is not a class instance"
    | .compound stmts => execSeq fuel stmts c s
    | .ifElse cond tb eb =>
      match exec fuel cond c s with
      | .ok v c' s' =>
        if isTrue v then exec fuel tb c' s'
        else
          match eb with
          | some e => exec fuel e c' s'
          | Option.none => .ok .none c' s'
      | .ret v c' s' => .ret v c' s'
      | .err m => .err m
      | .timeout => .timeout
    | .methodBody b =>
      match exec fuel b c s with
      | .ok _ c' s' => .ok .none c' s'
      | .ret v c' s' => .ok v c' s'
      | .err m => .err m
      | .timeout => .timeout
    | .methodCall obj name args =>
      match exec fuel obj c s with
      | .ok v c' s' =>
        match execArgs fuel args c' s' with
        | .ok vs c'' s'' =>
          match v with
          | .inst r =>
            match callMethod fuel r name vs s'' with
            | .ok rv s3 => .ok rv c'' s3
            | .ret rv cr s3 => .ret rv cr s3
            | .err m => .err m
            | .timeout => .timeout
          | _ => .err "UB: method call on a non-instance"
        | .ret v2 c'' s'' => .ret v2 c'' s''
        | .err m => .err m
        | .timeout => .timeout
      | .ret v c' s' => .ret v c' s'
      | .err m => .err m
      | .timeout => .timeout
    | .newInstance r args =>
      match execArgs fuel args c s with
      | .ok vs c' s' =>
        match getInst s' r with
        | Option.none => .err "UB: dangling instance"
        | some i =>
          if hasMethod i.cls "__init__" args.length then
            match callMethod fuel r "__init__" vs s' with
            | .ok _ s'' => .ok (.inst r) c' s''
            | .ret rv cr s'' => .ret rv cr s''
            | .err m => .err m
            | .timeout => .timeout
          else .ok (.inst r) c' s'
      | .ret v c' s' => .ret v c' s'
      | .err m => .err m
      | .timeout => .timeout
    | .printStmt args =>
      match execPrintArgs fuel args true .none c s with
      | .ok v c' s' => .ok v c' (pushOut s' "\n")
      | .ret v c' s' => .ret v c' s'
      | .err m => .err m
      | .timeout => .timeout
    | .retStmt e =>
      match exec fuel e c s with
      | .ok v c' s' => .ret v c' s'
      | .ret v c' s' => .ret v c' s'
      | .err m => .err m
      | .timeout => .timeout
    | .notStmt e =>
      match exec fuel e c s with
      | .ok v c' s' => .ok (.bool (!(isTrue v))) c' s'
      | .ret v c' s' => .ret v c' s'
      | .err m => .err m
      | .timeout => .timeout
    | .stringify e =>
      match exec fuel e c s with
      | .ok v c' s' =>
        match v with
        | .none => .ok (.str "None") c' s'
        | v =>
          match printValue fuel v ⟨s'.insts, ""⟩ with
          | .ok _ s2 => .ok (.str s2.out) c' ⟨s2.insts, s'.out⟩
          | .ret rv cr s2 => .ret rv cr ⟨s2.insts, s'.out⟩
          | .err m => .err m
          | .timeout => .timeout
      | .ret v c' s' => .ret v c' s'
      | .err m => .err m
      | .timeout => .timeout
    | .addStmt l r =>
      match exec fuel l c s with
      | .ok lv c' s' =>
        match exec fuel r c' s' with
        | .ok rv c'' s'' =>
          match lv, rv with
          | .num a, .num b => .ok (.num (a + b)) c'' s''
          | .str a, .str b => .ok (.str (a ++ b)) c'' s''
          | lv, rv =>
            match lv with
            | .inst ri =>
              match getInst s'' ri with
              | some i =>
                if hasMethod i.cls "__add__" 1 then
                  match callMethod fuel ri "__add__" [rv] s'' with
                  | .ok v s3 => .ok v c'' s3
                  | .ret v cr s3 => .ret v cr s3
                  | .err m => .err m
                  | .timeout => .timeout
                else .err "incorrect add operands"
              | Option.none => .err "UB: dangling instance"
            | _ => .err "incorrect add operands"
        | .ret v c'' s'' => .ret v c'' s''
        | .err m => .err m
        | .timeout => .timeout
      | .ret v c' s' => .ret v c' s'
      | .err m => .err m
      | .timeout => .timeout
    | .subStmt l r =>
      match exec fuel l c s with
      | .ok lv c' s' =>
        match exec fuel r c' s' with
        | .ok rv c'' s'' =>
          match lv, rv with
          | .num a, .num b => .ok (.num (a - b)) c'' s''
          | _, _ => .err "incorrect sub operands"
        | .ret v c'' s'' => .ret v c'' s''
        | .err m => .err m
        | .timeout => .timeout
      | .ret v c' s' => .ret v c' s'
      | .err m => .err m
      | .timeout => .timeout
    | .multStmt l r =>
      match exec fuel l c s with
      | .ok lv c' s' =>
        match exec fuel r c' s' with
        | .ok rv c'' s'' =>
          match lv, rv with
          | .num a, .num b => .ok (.num (a * b)) c'' s''
          | _, _ => .err "incorrect mult operands"
        | .ret v c'' s'' => .ret v c'' s''
        | .err m => .err m
        | .timeout => .timeout
      | .ret v c' s' => .ret v c' s'
      | .err m => .err m
      | .timeout => .timeout
    | .divStmt l r =>
      match exec fuel l c s with
      | .ok lv c' s' =>
        match exec fuel r c' s' with
        | .ok rv c'' s'' =>
          match lv, rv with
          | .num a, .num b =>
            if b == 0 then .err "division by zero"
            else .ok (.num (Int.tdiv a b)) c'' s''
          | _, _ => .err "incorrect div operands"
        | .ret v c'' s'' => .ret v c'' s''
        | .err m => .err m
        | .timeout => .timeout
      | .ret v c' s' => .ret v c' s'
      | .err m => .err m
      | .timeout => .timeout
    | .andStmt l r =>
      match exec fuel l c s with
      | .ok lv c' s' =>
        match exec fuel r c' s' with
        | .ok rv c'' s'' => .ok (.bool (isTrue lv && isTrue rv)) c'' s''
        | .ret v c'' s'' => .ret v c'' s''
        | .err m => .err m
        | .timeout => .timeout
      | .ret v c' s' => .ret v c' s'
      | .err m => .err m
      | .timeout => .timeout
    | .orStmt l r =>
      match exec fuel l c s with
      | .ok lv c' s' =>
        match exec fuel r c' s' with
        | .ok rv c'' s'' => .ok (.bool (isTrue lv || isTrue rv)) c'' s''
        | .ret v c'' s'' => .ret v c'' s''
        | .err m => .err m
        | .timeout => .timeout
      | .ret v c' s' => .ret v c' s'
      | .err m => .err m
      | .timeout => .timeout
    | .comparison op l r =>
      match exec fuel l c s with
      | .ok lv c' s' =>
        match exec fuel r c' s' with
        | .ok rv c'' s'' =>
          match (match op with
                 | .eq => equalV fuel lv rv s''
                 | .ne => notEqualV fuel lv rv s''
                 | .lt => lessV fuel lv rv s''
                 | .gt => greaterV fuel lv rv s''
                 | .le => lessOrEqualV fuel lv rv s''
                 | .ge => greaterOrEqualV fuel lv rv s'') with
          | .ok b s3 => .ok (.bool b) c'' s3
          | .ret v cr s3 => .ret v cr s3
          | .err m => .err m
          | .timeout => .timeout
        | .ret v c'' s'' => .ret v c'' s''
        | .err m => .err m
        | .timeout => .timeout
      | .ret v c' s' => .ret v c' s'
      | .err m => .err m
      | .timeout => .timeout
    | .classDefinition cl => .ok .none (assocIns c cl.name (.cls cl)) s

/-- Evaluate actual arguments left to right (`MethodCall`/`NewInstance`). -/
def execArgs : Nat → List Stmt → Closure → EvalState → ARes
  | 0, _, _, _ => .timeout
  | fuel + 1, args, c, s =>
    match args with
    | [] => .ok [] c s
    | a :: rest =>
      match exec fuel a c s with
      | .ok v c' s' =>
        match execArgs fuel rest c' s' with
        | .ok vs c'' s'' => .ok (v :: vs) c'' s''
        | .ret v2 c'' s'' => .ret v2 c'' s''
        | .err m => .err m
        | .timeout => .timeout
      | .ret v c' s' => .ret v c' s'
      | .err m => .err m
      | .timeout => .timeout

/-- Execute statements in order (`Compound::Execute`). -/
def execSeq : Nat → List Stmt → Closure → EvalState → XRes
  | 0, _, _, _ => .timeout
  | fuel + 1, stmts, c, s =>
    match stmts with
    | [] => .ok .none c s
    | st :: rest =>
      match exec fuel st c s with
      | .ok _ c' s' => execSeq fuel rest c' s'
      | .ret v c' s' => .ret v c' s'
      | .err m => .err m
      | .timeout => .timeout

/-- The argument loop of `Print::Execute` (statement.cpp:206-228): space
separators, `None` for empty holders, and the last value as the result. -/
def execPrintArgs : Nat → List Stmt → Bool → Value → Closure → EvalState → XRes
  | 0, _, _, _, _, _ => .timeout
  | fuel + 1, args, first, last, c, s =>
    match args with
    | [] => .ok last c s
    | a :: rest =>
      let s1 := if first then s else pushOut s " "
      match exec fuel a c s1 with
      | .ok v c' s' =>
        match v with
        | .none => execPrintArgs fuel rest false .none c' (pushOut s' "None")
        | v =>
          match printValue fuel v s' with
          | .ok _ s2 => execPrintArgs fuel rest false v c' s2
          | .ret rv cr s2 => .ret rv cr s2
          | .err m => .err m
          | .timeout => .timeout
      | .ret v c' s' => .ret v c' s'
      | .err m => .err m
      | .timeout => .timeout

/-- `runtime::ClassInstance::Call` (runtime.cpp:92-109). -/
def callMethod : Nat → Nat → String → List Value → EvalState → FRes Value
  | 0, _, _, _, _ => .timeout
  | fuel + 1, r, name, args, s =>
    match getInst s r with
    | Option.none => .err "UB: dangling instance"
    | some i =>
      if hasMethod i.cls name args.length then
        match getMethod i.cls name with
        | some m =>
          match exec fuel m.body (bindParams m.formals args r) s with
          | .ok v _ s' => .ok v s'
          | .ret v cr s' => .ret v cr s'
          | .err msg => .err msg
          | .timeout => .timeout
        | Option.none => .err "unreachable: hasMethod implies getMethod"
      else .err "Not implemented"

/-- `runtime::Equal` (runtime.cpp:156-191). -/
def equalV : Nat → Value → Value → EvalState → FRes Bool
  | 0, _, _, _ => .timeout
  | fuel + 1, a, b, s =>
    match a, b with
    | .none, .none => .ok true s
    | .none, _ => .err "Cannot compare objects for equality"
    | .num x, .num y => .ok (x == y) s
    | .str x, .str y => .ok (x == y) s
    | .bool x, .bool y => .ok (x == y) s
    | a, b =>
      match a with
      | .inst r =>
        match getInst s r with
        | some i =>
          if hasMethod i.cls "__eq__" 1 then
            match callMethod fuel r "__eq__" [b] s with
            | .ok v s' =>
              match v with
              | .bool bb => .ok bb s'
              | _ => .err "UB: __eq__ result is not a Bool"
            | .ret v cr s' => .ret v cr s'
            | .err m => .err m
            | .timeout => .timeout
          else .err "Cannot compare objects for equality"
        | Option.none => .err "UB: dangling instance"
      | _ => .err "Cannot compare objects for equality"

/-- `runtime::Less` (runtime.cpp:200-231). -/
def lessV : Nat → Value → Value → EvalState → FRes Bool
  | 0, _, _, _ => .timeout
  | fuel + 1, a, b, s =>
    match a, b with
    | .none, _ => .err "Cannot compare objects for equality"
    | .num x, .num y => .ok (decide (x < y)) s
    | .str x, .str y => .ok (decide (x < y)) s
    | .bool x, .bool y => .ok (!x && y) s
    | a, b =>
      match a with
      | .inst r =>
        match getInst s r with
        | some i =>
          if hasMethod i.cls "__lt__" 1 then
            match callMethod fuel r "__lt__" [b] s with
            | .ok v s' =>
              match v with
              | .bool bb => .ok bb s'
              | _ => .err "UB: __lt__ result is not a Bool"
            | .ret v cr s' => .ret v cr s'
            | .err m => .err m
            | .timeout => .timeout
          else .err "Cannot compare objects for less"
        | Option.none => .err "UB: dangling instance"
      | _ => .err "Cannot compare objects for less"

/-- `runtime::NotEqual` (runtime.cpp:233-235): `!Equal(lhs, rhs, context)`. -/
def notEqualV : Nat → Value → Value → EvalState → FRes Bool
  | 0, _, _, _ => .timeout
  | fuel + 1, a, b, s =>
    match equalV fuel a b s with
    | .ok e s' => .ok (!e) s'
    | .ret v cr s' => .ret v cr s'
    | .err m => .err m
    | .timeout => .timeout

/-- `runtime::Greater` (runtime.cpp:237-239): `!Less && !Equal`, with the
C++ short-circuit of `&&` (when `Less` is true, `Equal` is not called). -/
def greaterV : Nat → Value → Value → EvalState → FRes Bool
  | 0, _, _, _ => .timeout
  | fuel + 1, a, b, s =>
    match lessV fuel a b s with
    | .ok l s' =>
      if l then .ok false s'
      else
        match equalV fuel a b s' with
        | .ok e s'' => .ok (!e) s''
        | .ret v cr s'' => .ret v cr s''
        | .err m => .err m
        | .timeout => .timeout
    | .ret v cr s' => .ret v cr s'
    | .err m => .err m
    | .timeout => .timeout

/-- `runtime::LessOrEqual` (runtime.cpp:241-243): `Less || Equal`, with the
C++ short-circuit of `||`. -/
def lessOrEqualV : Nat → Value → Value → EvalState → FRes Bool
  | 0, _, _, _ => .timeout
  | fuel + 1, a, b, s =>
    match lessV fuel a b s with
    | .ok l s' =>
      if l then .ok true s'
      else equalV fuel a b s'
    | .ret v cr s' => .ret v cr s'
    | .err m => .err m
    | .timeout => .timeout

/-- `runtime::GreaterOrEqual` (runtime.cpp:245-247): `!Less`. -/
def greaterOrEqualV : Nat → Value → Value → EvalState → FRes Bool
  | 0, _, _, _ => .timeout
  | fuel + 1, a, b, s =>
    match lessV fuel a b s with
    | .ok l s' => .ok (!l) s'
    | .ret v cr s' => .ret v cr s'
    | .err m => .err m
    | .timeout => .timeout

/-- The `Print` overrides of the `Object` hierarchy; for an instance,
`runtime::ClassInstance::Print` (runtime.cpp:111-119). -/
def printValue : Nat → Value → EvalState → FRes Unit
  | 0, _, _ => .timeout
  | fuel + 1, v, s =>
    match v with
    | .none => .err "UB: Print on an empty holder"
    | .num n => .ok () (pushOut s (toString n))
    | .str t => .ok () (pushOut s t)
    | .bool b => .ok () (pushOut s (if b then "True" else "False"))
    | .cls cl => .ok () (pushOut s ("Class " ++ cl.name))
    | .inst r =>
      match getInst s r with
      | Option.none => .err "UB: dangling instance"
      | some i =>
        match getMethod i.cls "__str__" with
        | some _ =>
          match callMethod fuel r "__str__" [] s with
          | .ok v' s' => printValue fuel v' s'
          | .ret v' cr s' => .ret v' cr s'
          | .err m => .err m
          | .timeout => .timeout
        | Option.none => .ok () (pushOut s (addrString r))

end

/-! ## The lexer (`lexer.h` / `lexer.cpp`)

The character stream is a `List Char`; each `Lexer::Parse...` helper
becomes a function from the remaining input (plus the lexer state:
emitted tokens and the tracked indentation level `begin_spaces_count_`)
to the remaining input after it.  A `std::logic_error` thrown while
scanning a string literal becomes `Except.error`.  The C++ token loop
runs until the stream is exhausted; an iteration in which no helper
consumes a character repeats forever in C++, which the model reports as
`LexResult.stuck`. -/

/-- The 24 token kinds of `parse::token_type`. -/
inductive Tok where
  | number (n : Int)
  | id (v : String)
  | charTok (c : Char)
  | stringTok (v : String)
  | classT | returnT | ifT | elseT | defT
  | newline | printT | indent | dedent
  | andT | orT | notT
  | eqT | notEqT | lessOrEqT | greaterOrEqT
  | noneT | trueT | falseT | eof
deriving DecidableEq, Repr

/-- C `isalpha` on ASCII (the "C" locale used by the lexer). -/
def isAlphaA (c : Char) : Bool :=
  (65 ≤ c.toNat && c.toNat ≤ 90) || (97 ≤ c.toNat && c.toNat ≤ 122)

/-- C `isdigit` on ASCII. -/
def isDigitA (c : Char) : Bool :=
  48 ≤ c.toNat && c.toNat ≤ 57

/-- C `isalnum` on ASCII. -/
def isAlnumA (c : Char) : Bool :=
  isAlphaA c || isDigitA c

/-- C `ispunct` on ASCII: printable, neither alphanumeric nor space. -/
def isPunctA (c : Char) : Bool :=
  (33 ≤ c.toNat && c.toNat ≤ 47) || (58 ≤ c.toNat && c.toNat ≤ 64) ||
  (91 ≤ c.toNat && c.toNat ≤ 96) || (123 ≤ c.toNat && c.toNat ≤ 126)

/-- Lexer state: the token buffer `tokens_` and `begin_spaces_count_`. -/
structure LexSt where
  toks : List Tok
  bsc : Int

/-- Count and drop the leading spaces (the space loop of `ParseIndent`). -/
def dropSpacesCount : List Char → Nat × List Char
  | [] => (0, [])
  | c :: rest =>
    if c = ' ' then
      let p := dropSpacesCount rest
      (p.1 + 1, p.2)
    else (0, c :: rest)

/-- Test whether the character after the leading spaces starts a blank or
comment line (`next_char == '\n' || next_char == '#'`, lexer.cpp:322-325). -/
def blankOrComment (o : Option Char) : Bool :=
  o = some '\n' || o = some '#'

/-- `Lexer::ParseIndent` (lexer.cpp:308-341): count leading spaces; a blank
or comment line leaves the tracked level untouched; otherwise emit
`|delta|` copies of indent/dedent for `delta = (spaces - tracked) / 2` with
C++ truncating division and update the tracked level. -/
def parseIndent (inp : List Char) (st : LexSt) : List Char × LexSt :=
  let p := dropSpacesCount inp
  if blankOrComment p.2.head? then (p.2, st)
  else
    let delta : Int := Int.tdiv ((p.1 : Int) - st.bsc) 2
    let tok := if delta > 0 then Tok.indent else Tok.dedent
    (p.2, ⟨st.toks ++ List.replicate delta.natAbs tok, (p.1 : Int)⟩)

/-- `Lexer::ParseNewLine` (lexer.cpp:293-306): consume a `'\n'`, emit
`Newline` unless the buffer is empty or already ends in `Newline`, then run
the indentation routine. -/
def parseNewLine (inp : List Char) (st : LexSt) : List Char × LexSt :=
  match inp with
  | [] => (inp, st)
  | c :: rest =>
    if c = '\n' then
      let st' :=
        match st.toks.getLast? with
        | Option.none => st
        | some t => if t = Tok.newline then st else ⟨st.toks ++ [Tok.newline], st.bsc⟩
      parseIndent rest st'
    else (inp, st)

/-- Translate one escape character of a string literal (lexer.cpp:233-254). -/
def escapeChar (c : Char) : Option Char :=
  if c = 'n' then some '\n'
  else if c = 't' then some '\t'
  else if c = 'r' then some '\r'
  else if c = '\"' then some '\"'
  else if c = '\'' then some '\''
  else if c = '\\' then some '\\'
  else Option.none

/-- The scanning loop of `Lexer::ParseStrings` after the opening quote.
Reaching the end of input without a closing quote falls out of the C++
`while (it != end)` loop and still emits the accumulated string. -/
def scanString (q : Char) (inp : List Char) (acc : String) (st : LexSt) :
    Except String (List Char × LexSt) :=
  match inp with
  | [] => .ok ([], ⟨st.toks ++ [Tok.stringTok acc], st.bsc⟩)
  | c :: rest =>
    if c = q then .ok (rest, ⟨st.toks ++ [Tok.stringTok acc], st.bsc⟩)
    else if c = '\\' then
      match rest with
      | [] => .error "String parsing error"
      | e :: rest' =>
        match escapeChar e with
        | some ch => scanString q rest' (acc.push ch) st
        | Option.none => .error ("Unrecognized escape sequence \\" ++ String.singleton e)
    else if c = '\n' ∨ c = '\r' then .error "Unexpected end of line"
    else scanString q rest (acc.push c) st

/-- `Lexer::ParseStrings` (lexer.cpp:210-268). -/
def parseStrings (inp : List Char) (st : LexSt) :
    Except String (List Char × LexSt) :=
  match inp with
  | q :: rest =>
    if q = '\'' ∨ q = '\"' then scanString q rest "" st
    else .ok (inp, st)
  | [] => .ok (inp, st)

/-- Keyword table (`Lexer::InitKeywordsDict`, lexer.cpp:97-110). -/
def keywordTok (s : String) : Option Tok :=
  if s = "class" then some .classT
  else if s = "return" then some .returnT
  else if s = "if" then some .ifT
  else if s = "else" then some .elseT
  else if s = "def" then some .defT
  else if s = "print" then some .printT
  else if s = "or" then some .orT
  else if s = "None" then some .noneT
  else if s = "and" then some .andT
  else if s = "not" then some .notT
  else if s = "True" then some .trueT
  else if s = "False" then some .falseT
  else Option.none

/-- `Lexer::ParseId` (lexer.cpp:169-193). -/
def parseId (inp : List Char) (st : LexSt) : List Char × LexSt :=
  match inp.head? with
  | some c =>
    if isAlphaA c || c = '_' then
      let lexeme := inp.takeWhile (fun d => isAlnumA d || d = '_')
      let rest := inp.dropWhile (fun d => isAlnumA d || d = '_')
      let name := String.mk lexeme
      match keywordTok name with
      | some t => (rest, ⟨st.toks ++ [t], st.bsc⟩)
      | Option.none => (rest, ⟨st.toks ++ [Tok.id name], st.bsc⟩)
    else (inp, st)
  | Option.none => (inp, st)

/-- `Lexer::ParseDoubleChars` (lexer.cpp:270-291). -/
def parseDoubleChars (inp : List Char) (st : LexSt) : List Char × LexSt :=
  match inp with
  | a :: rest =>
    if rest.head? = some '=' then
      if a = '=' then (rest.tail, ⟨st.toks ++ [Tok.eqT], st.bsc⟩)
      else if a = '!' then (rest.tail, ⟨st.toks ++ [Tok.notEqT], st.bsc⟩)
      else if a = '>' then (rest.tail, ⟨st.toks ++ [Tok.greaterOrEqT], st.bsc⟩)
      else if a = '<' then (rest.tail, ⟨st.toks ++ [Tok.lessOrEqT], st.bsc⟩)
      else (inp, st)
    else (inp, st)
  | [] => (inp, st)

/-- `Lexer::SkipComment` (lexer.cpp:349-363): after `'#'`, discard up to
but not including the next `'\n'` (the newline is pushed back). -/
def dropUntilNl : List Char → List Char
  | [] => []
  | c :: r => if c = '\n' then c :: r else dropUntilNl r

/-- `Lexer::ParseChars` (lexer.cpp:195-208). -/
def parseChars (inp : List Char) (st : LexSt) : List Char × LexSt :=
  match inp with
  | c :: rest =>
    if isPunctA c then
      if c = '#' then (dropUntilNl rest, st)
      else (rest, ⟨st.toks ++ [Tok.charTok c], st.bsc⟩)
    else (inp, st)
  | [] => (inp, st)

/-- Decimal value of a digit run. -/
def digitsVal (l : List Char) : Nat :=
  l.foldl (fun a c => a * 10 + (c.toNat - 48)) 0

/-- `Lexer::ParseNumbers` (lexer.cpp:145-167). -/
def parseNumbers (inp : List Char) (st : LexSt) : List Char × LexSt :=
  match inp.head? with
  | some c =>
    if isDigitA c then
      let digits := inp.takeWhile isDigitA
      let rest := inp.dropWhile isDigitA
      (rest, ⟨st.toks ++ [Tok.number (digitsVal digits : Int)], st.bsc⟩)
    else (inp, st)
  | Option.none => (inp, st)

/-- `Lexer::SkipSpaces` (lexer.cpp:343-347). -/
def skipSpaces (inp : List Char) : List Char :=
  inp.dropWhile (fun c => c = ' ')

/-- One iteration of the `ParseTokens` loop body (lexer.cpp:115-125): the
seven helpers in source order. -/
def runHandlers (inp : List Char) (st : LexSt) :
    Except String (List Char × LexSt) :=
  let p1 := parseNewLine inp st
  match parseStrings p1.1 p1.2 with
  | .error m => .error m
  | .ok p2 =>
    let p3 := parseId p2.1 p2.2
    let p4 := parseDoubleChars p3.1 p3.2
    let p5 := parseChars p4.1 p4.2
    let p6 := parseNumbers p5.1 p5.2
    .ok (skipSpaces p6.1, p6.2)

/-- Result of running the lexer: the token vector, the propagated scanning
error, or `stuck` when an iteration consumes nothing (the C++ loop then
repeats that iteration forever). -/
inductive LexResult where
  | ok (toks : List Tok)
  | failed (msg : String)
  | stuck
deriving DecidableEq, Repr

/-- End-of-loop steps of `ParseTokens` (lexer.cpp:127-130): a trailing
`Newline` unless the buffer is empty or already ends in `Newline` or
`Dedent`, then `Eof`. -/
def finishToks (st : LexSt) : List Tok :=
  (match st.toks.getLast? with
   | Option.none => st.toks
   | some t =>
     if t = Tok.newline ∨ t = Tok.dedent then st.toks
     else st.toks ++ [Tok.newline]) ++ [Tok.eof]

/-- The `ParseTokens` loop.  The fuel only bounds the iteration count; the
initial fuel `inp.length` of `lex` can never run out because a
non-consuming iteration returns `stuck` at once and a consuming one
shortens the input. -/
def lexLoop : Nat → List Char → LexSt → LexResult
  | _, [], st => .ok (finishToks st)
  | 0, _ :: _, _ => .stuck
  | fuel + 1, c :: rest, st =>
    match runHandlers (c :: rest) st with
    | .error m => .failed m
    | .ok (inp', st') =>
      if inp'.length < rest.length + 1 then lexLoop fuel inp' st'
      else .stuck

/-- `Lexer::ParseTokens` (lexer.cpp:112-133) on a whole character stream. -/
def lex (inp : List Char) : LexResult :=
  lexLoop inp.length inp ⟨[], 0⟩

/-- Running indent/dedent balance check: scanning left to right, the
number of `Dedent` tokens seen never exceeds the number of `Indent`
tokens seen. -/
def balRun (i d : Nat) : List Tok → Bool
  | [] => true
  | t :: ts =>
    let i' := if t = Tok.indent then i + 1 else i
    let d' := if t = Tok.dedent then d + 1 else d
    decide (d' ≤ i') && balRun i' d' ts

/-- Prefix balance of a token list. -/
def balancedB (l : List Tok) : Bool :=
  balRun 0 0 l

/-- Evenness of the indentation found after every `'\n'` of the input:
whenever a newline is followed by a run of `n` spaces whose first
non-space character is neither another newline nor `'#'` (including end
of input), `n` is a multiple of the 2-space indent unit. -/
def linesOk : List Char → Bool
  | [] => true
  | c :: rest =>
    if c = '\n' then
      (blankOrComment (dropSpacesCount rest).2.head? ||
        (dropSpacesCount rest).1 % 2 == 0) && linesOk rest
    else linesOk rest

/-- Characters for which some lexer helper is guaranteed to make progress;
any other character at the start of a loop iteration makes the C++ loop
spin forever. -/
def isHandled (c : Char) : Bool :=
  c = '\n' || c = '\'' || c = '\"' || isAlphaA c || c = '_' ||
  isDigitA c || isPunctA c || c = ' '

/-- Inputs entirely made of handled characters. -/
def allHandled (l : List Char) : Bool :=
  l.all isHandled

/-! ## Association-list lemmas -/

theorem assocGet_map_ne {α : Type} (t : List (String × α)) (k k' : String) (v : α)
    (h : ¬k = k') :
    assocGet (t.map (fun p => if p.1 == k then (k, v) else p)) k' = assocGet t k' := by
  induction t with
  | nil => rfl
  | cons a t ih =>
    rcases ha : (a.1 == k) with _ | _
    · simp only [List.map_cons, ha, Bool.false_eq_true, if_false]
      simp only [assocGet, ih]
    · have ha' : a.1 = k := by simpa using ha
      have hkk : (k == k') = false := by simpa using h
      have hak : (a.1 == k') = false := by simp [ha']; simpa using h
      simp only [List.map_cons, ha, if_true]
      simp only [assocGet, hkk, hak, Bool.false_eq_true, if_false, ih]

theorem assocGet_map_eq {α : Type} (t : List (String × α)) (k : String) (v : α) :
    assocGet (t.map (fun p => if p.1 == k then (k, v) else p)) k =
      if t.any (fun p => p.1 == k) then some v else assocGet t k := by
  induction t with
  | nil => rfl
  | cons a t ih =>
    rcases ha : (a.1 == k) with _ | _
    · simp only [List.map_cons, ha, Bool.false_eq_true, if_false, List.any_cons,
        Bool.false_or]
      simp only [assocGet, ha, Bool.false_eq_true, if_false, ih]
    · simp only [List.map_cons, ha, if_true, List.any_cons, Bool.true_or]
      simp [assocGet]

theorem assocGet_of_not_any {α : Type} (m : List (String × α)) (k : String)
    (h : m.any (fun p => p.1 == k) = false) : assocGet m k = Option.none := by
  induction m with
  | nil => rfl
  | cons a m ih =>
    simp only [List.any_cons, Bool.or_eq_false_iff] at h
    simp only [assocGet, h.1, Bool.false_eq_true, if_false, ih h.2]

theorem assocGet_append_single {α : Type} (m : List (String × α)) (k k' : String) (v : α) :
    assocGet (m ++ [(k, v)]) k' =
      match assocGet m k' with
      | some x => some x
      | Option.none => if k == k' then some v else Option.none := by
  induction m with
  | nil => rfl
  | cons a m ih =>
    rcases ha : (a.1 == k') with _ | _
    · simp only [List.cons_append]
      simp only [assocGet, ha, Bool.false_eq_true, if_false, ih]
    · simp only [List.cons_append]
      simp only [assocGet, ha, if_true]

theorem assocGet_assocIns {α : Type} (m : List (String × α)) (k k' : String) (v : α) :
    assocGet (assocIns m k v) k' = if k == k' then some v else assocGet m k' := by
  unfold assocIns
  rcases hany : m.any (fun p => p.1 == k) with _ | _
  · simp only [hany, Bool.false_eq_true, if_false]
    rw [assocGet_append_single]
    rcases hkk : (k == k') with _ | _
    · cases h : assocGet m k' <;> simp [hkk]
    · have hk : k = k' := eq_of_beq hkk
      subst hk
      rw [assocGet_of_not_any m k hany]
  · simp only [hany, if_true]
    rcases hkk : (k == k') with _ | _
    · have hkk' : ¬k = k' := by simpa using hkk
      rw [assocGet_map_ne m k k' v hkk']
      simp [hkk]
    · have hk : k = k' := eq_of_beq hkk
      subst hk
      rw [assocGet_map_eq m k v]
      simp [hany, hkk]

theorem keys_assocIns {α : Type} (m : List (String × α)) (k : String) (v : α) :
    (assocIns m k v).map Prod.fst =
      if m.any (fun p => p.1 == k) then m.map Prod.fst else m.map Prod.fst ++ [k] := by
  unfold assocIns
  by_cases hany : m.any (fun p => p.1 == k) = true
  · simp only [hany, if_true, List.map_map]
    refine List.map_congr_left ?_
    intro p _
    by_cases hp : (p.1 == k) = true
    · have : p.1 = k := by simpa using hp
      simp [hp, this]
    · simp at hp
      simp [hp]
  · simp only [Bool.not_eq_true] at hany
    simp [hany]

theorem nodup_keys_assocIns {α : Type} (m : List (String × α)) (k : String) (v : α)
    (h : (m.map Prod.fst).Nodup) : ((assocIns m k v).map Prod.fst).Nodup := by
  rw [keys_assocIns]
  by_cases hany : m.any (fun p => p.1 == k) = true
  · simpa [hany] using h
  · simp only [Bool.not_eq_true] at hany
    have hk : k ∉ m.map Prod.fst := by
      intro hmem
      rcases List.mem_map.mp hmem with ⟨p, hp, hpk⟩
      have : p.1 == k := by simp [hpk]
      have : m.any (fun p => p.1 == k) = true := List.any_eq_true.mpr ⟨p, hp, this⟩
      simp [this] at hany
    simp [hany, List.nodup_append, h, hk]

/-! ## Method-resolution-map lemmas (the `runtime::Class` constructor) -/

/-- Among a method list, the last method with the given name (inserting the
list in order into a map, the last occurrence overwrites the earlier ones). -/
def lastOcc (ms : List Mthd) (name : String) : Option Mthd :=
  ms.foldl (fun acc m => if m.name == name then some m else acc) Option.none

theorem lastOcc_foldl_acc (ms : List Mthd) (name : String) (acc : Option Mthd) :
    ms.foldl (fun acc m => if m.name == name then some m else acc) acc =
      match lastOcc ms name with
      | some x => some x
      | Option.none => acc := by
  induction ms generalizing acc with
  | nil => rfl
  | cons m ms ih =>
    have hL : (m :: ms).foldl (fun acc m => if m.name == name then some m else acc) acc =
        ms.foldl (fun acc m => if m.name == name then some m else acc)
          (if m.name == name then some m else acc) := rfl
    have hC : lastOcc (m :: ms) name =
        match lastOcc ms name with
        | some x => some x
        | Option.none => if m.name == name then some m else Option.none := by
      show ms.foldl (fun acc m => if m.name == name then some m else acc)
          (if m.name == name then some m else Option.none) = _
      rw [ih]
    rw [hL, ih, hC]
    cases h : lastOcc ms name with
    | none =>
      simp only [h]
      rcases hm : (m.name == name) with _ | _ <;> simp [hm]
    | some x => simp only [h]

theorem lastOcc_cons (m : Mthd) (ms : List Mthd) (name : String) :
    lastOcc (m :: ms) name =
      match lastOcc ms name with
      | some x => some x
      | Option.none => if m.name == name then some m else Option.none := by
  show ms.foldl (fun acc m => if m.name == name then some m else acc)
      (if m.name == name then some m else Option.none) = _
  rw [lastOcc_foldl_acc]

theorem buildMap_lookup (ms : List Mthd) (init : List (String × Mthd)) (name : String) :
    assocGet (buildMap init ms) name =
      match lastOcc ms name with
      | some m => some m
      | Option.none => assocGet init name := by
  induction ms generalizing init with
  | nil => rfl
  | cons m ms ih =>
    have h1 : buildMap init (m :: ms) = buildMap (assocIns init m.name m) ms := rfl
    rw [h1, ih, lastOcc_cons]
    cases h : lastOcc ms name with
    | none =>
      simp only [h]
      rw [assocGet_assocIns]
      rcases hm : (m.name == name) with _ | _ <;> simp [hm]
    | some x => simp only [h]

theorem buildMap_nodup (ms : List Mthd) (init : List (String × Mthd))
    (h : (init.map Prod.fst).Nodup) : ((buildMap init ms).map Prod.fst).Nodup := by
  induction ms generalizing init with
  | nil => exact h
  | cons m ms ih =>
    simp only [buildMap, List.foldl_cons]
    exact ih (assocIns init m.name m) (nodup_keys_assocIns init m.name m h)

/-! ## Example values used by counterexamples and witnesses -/

/-- Example class without methods. -/
def noMethodsCls : Cls := mkClass "D" [] Option.none

/-- Example class whose method `make` returns the result of one fixed
`NewInstance` node referring to heap cell 0. -/
def makerCls : Cls :=
  mkClass "C" [.mk "make" [] (.methodBody (.retStmt (.newInstance 0 [])))] Option.none

/-- Heap with the `NewInstance` node's member instance (cell 0) and an
instance of the maker class (cell 1). -/
def makerHeap : EvalState := ⟨[⟨noMethodsCls, []⟩, ⟨makerCls, []⟩], ""⟩

def makerClosure : Closure := [("c", .inst 1)]

/-- Program: `a = c.make()`, `a.f = 7`, `b = c.make()` — the same
`NewInstance` node is evaluated twice via the two method calls. -/
def makerProg : Stmt := .compound
  [ .assignment "a" (.methodCall (.variableValue ["c"]) "make" []),
    .fieldAssignment ["a"] "f" (.numConst 7),
    .assignment "b" (.methodCall (.variableValue ["c"]) "make" []) ]

/-- Base class owning method `f`. -/
def baseWithF : Cls := mkClass "A" [.mk "f" [] (.methodBody .noneConst)] Option.none

/-- Child of `baseWithF` with no own methods. -/
def midNoOwn : Cls := mkClass "B" [] (some baseWithF)

/-- Grandchild: its parent resolves `f`, but only through inheritance. -/
def grandChildCls : Cls := mkClass "CC" [] (some midNoOwn)

/-- Class with a unary method `m`, for the invocation witness. -/
def oneParamCls : Cls :=
  mkClass "M" [.mk "m" ["x"] (.methodBody (.retStmt (.variableValue ["x"])))] Option.none

def oneParamHeap : EvalState := ⟨[⟨oneParamCls, []⟩], ""⟩

/-- Class whose `__str__` takes one formal parameter. -/
def badStrCls : Cls :=
  mkClass "S" [.mk "__str__" ["x"] (.methodBody (.retStmt (.strConst "s")))] Option.none

/-! ## Claim C1 — short-circuit of `And`/`Or` -/

/-- Claim C1: the spec and the header comments (statement.h:252, 294)
require `And` to evaluate `rhs` only if `lhs` is truthy and `Or` to
evaluate `rhs` only if `lhs` is falsy.  The code (statement.cpp:314-327,
397-413) evaluates both operands unconditionally: with a falsy `lhs`,
`False and 1/0` must yield `Bool(false)` without touching `rhs`, and
`True or 1/0` must yield `Bool(true)`, yet both evaluations execute the
division and raise "division by zero". -/
theorem claim_C1_and_or_evaluate_rhs_unconditionally :
    exec 5 (.andStmt (.boolConst false) (.divStmt (.numConst 1) (.numConst 0))) [] ⟨[], ""⟩
        = .err "division by zero" ∧
    exec 5 (.orStmt (.boolConst true) (.divStmt (.numConst 1) (.numConst 0))) [] ⟨[], ""⟩
        = .err "division by zero" :=
  ⟨rfl, rfl⟩

/-! ## Claim C2 — `NewInstance` does not create a fresh instance per evaluation -/

/-- Claim C2 counterexample: evaluating the same `NewInstance` node twice
(through two calls of `make`) returns the same `ClassInstance` (heap cell
0) both times: `a` and `b` alias one instance, and the second evaluation
starts with the field scope `[("f", 7)]` written between the calls, not
with an empty one. -/
theorem claim_C2_counterexample :
    exec 20 makerProg makerClosure makerHeap =
      .ok .none [("c", .inst 1), ("a", .inst 0), ("b", .inst 0)]
        ⟨[⟨noMethodsCls, [("f", .num 7)]⟩, ⟨makerCls, []⟩], ""⟩ :=
  rfl

/-- Claim C2 (amended): each `NewInstance` node owns a single
`ClassInstance`, created at node construction (heap cell `ref`); every
evaluation evaluates the arguments, invokes `__init__` on that same
instance when the class resolves `__init__` with arity equal to the
argument count, and returns that same instance by shared reference — so
every successful evaluation of the node yields `inst ref`, the node's
member instance, rather than a fresh one. -/
theorem claim_C2_amended (fuel ref : Nat) (args : List Stmt) (c : Closure) (s : EvalState) :
    (∀ v c2 s2, exec fuel (.newInstance ref args) c s = .ok v c2 s2 → v = .inst ref) ∧
    (∀ vs c' s' i, execArgs fuel args c s = .ok vs c' s' → getInst s' ref = some i →
        hasMethod i.cls "__init__" args.length = false →
        exec (fuel + 1) (.newInstance ref args) c s = .ok (.inst ref) c' s') ∧
    (∀ vs c' s' i, execArgs fuel args c s = .ok vs c' s' → getInst s' ref = some i →
        hasMethod i.cls "__init__" args.length = true →
        exec (fuel + 1) (.newInstance ref args) c s =
          (match callMethod fuel ref "__init__" vs s' with
           | .ok _ s2 => .ok (.inst ref) c' s2
           | .ret rv cr s2 => .ret rv cr s2
           | .err m => .err m
           | .timeout => .timeout)) := by
  refine ⟨?_, ?_, ?_⟩
  · intro v c2 s2 h
    cases fuel with
    | zero => simp [exec] at h
    | succ f =>
      simp only [exec] at h
      repeat' split at h
      all_goals simp_all
  · intro vs c' s' i hargs hins hno
    simp only [exec, hargs, hins, hno, Bool.false_eq_true, if_false]
  · intro vs c' s' i hargs hins hyes
    simp only [exec, hargs, hins, hyes, if_true]

/-- Claim C2 amended, witness at a concrete node. -/
theorem claim_C2_amended_witness :
    exec 3 (.newInstance 0 []) [] ⟨[⟨noMethodsCls, []⟩], ""⟩ =
      .ok (.inst 0) [] ⟨[⟨noMethodsCls, []⟩], ""⟩ := by
  have h := claim_C2_amended 2 0 [] [] ⟨[⟨noMethodsCls, []⟩], ""⟩
  exact h.2.1 [] [] ⟨[⟨noMethodsCls, []⟩], ""⟩ ⟨noMethodsCls, []⟩ rfl rfl rfl

/-! ## Claim C3 — inheritance is not transitive in the resolution map -/

/-- Claim C3 counterexample: `f` resolves in class `B` (inherited from its
parent `A`), but not in `B`'s child `CC` — the constructor copies only the
parent's own `methods_` vector, not the parent's resolution map, so a name
resolvable in the parent need not be resolvable in the child. -/
theorem claim_C3_counterexample :
    (getMethod midNoOwn "f").isSome = true ∧
    (getMethod grandChildCls "f").isSome = false :=
  ⟨rfl, rfl⟩

/-- Claim C3 (amended): the resolution map of a class has exactly one
entry per distinct method name drawn from the class's own methods and the
direct parent's own method list only: an own method overrides a
same-named method of the parent, among own methods the last occurrence
wins (likewise among the parent's own methods), and names that the parent
itself only inherited from further ancestors are not visible. -/
theorem claim_C3_amended (nm name : String) (ms : List Mthd) (parent : Option Cls) :
    getMethod (mkClass nm ms parent) name =
      (match lastOcc ms name with
       | some m => some m
       | Option.none =>
         match parent with
         | some p => lastOcc p.methods name
         | Option.none => Option.none) ∧
    ((mkClass nm ms parent).resolved.map Prod.fst).Nodup := by
  constructor
  · show assocGet (mkClass nm ms parent).resolved name = _
    cases parent with
    | none =>
      show assocGet (buildMap [] ms) name = _
      rw [buildMap_lookup]
      cases h : lastOcc ms name <;> simp [assocGet]
    | some p =>
      show assocGet (buildMap (buildMap [] p.methods) ms) name = _
      rw [buildMap_lookup]
      cases h : lastOcc ms name with
      | none =>
        simp only []
        rw [buildMap_lookup]
        cases h2 : lastOcc p.methods name <;> simp [assocGet]
      | some x => simp only []
  · cases parent with
    | none => exact buildMap_nodup ms [] (by simp)
    | some p =>
      exact buildMap_nodup ms _ (buildMap_nodup p.methods [] (by simp))

/-! ## Claim C6 — derived comparison primitives -/

/-- Claim C6: whenever the underlying `Equal`/`Less` calls return without
raising, the derived primitives satisfy `NotEqual = !Equal`,
`GreaterOrEqual = !Less`, `Greater = !Less && !Equal` and
`LessOrEqual = Less || Equal` (with the C++ short-circuit of `&&`/`||`:
when `Less` yields `true`, `Equal` is not consulted and the state after
`Less` is final). -/
theorem claim_C6_derived_comparisons (fuel : Nat) (a b : Value) (s : EvalState) :
    (∀ e s1, equalV fuel a b s = .ok e s1 →
        notEqualV (fuel + 1) a b s = .ok (!e) s1) ∧
    (∀ l s1, lessV fuel a b s = .ok l s1 →
        greaterOrEqualV (fuel + 1) a b s = .ok (!l) s1) ∧
    (∀ l s1 e s2, lessV fuel a b s = .ok l s1 → equalV fuel a b s1 = .ok e s2 →
        greaterV (fuel + 1) a b s = .ok (!l && !e) (if l then s1 else s2)) ∧
    (∀ l s1 e s2, lessV fuel a b s = .ok l s1 → equalV fuel a b s1 = .ok e s2 →
        lessOrEqualV (fuel + 1) a b s = .ok (l || e) (if l then s1 else s2)) := by
  refine ⟨?_, ?_, ?_, ?_⟩
  · intro e s1 h
    simp [notEqualV, h]
  · intro l s1 h
    simp [greaterOrEqualV, h]
  · intro l s1 e s2 hl he
    cases l
    · simp [greaterV, hl, he]
    · simp [greaterV, hl]
  · intro l s1 e s2 hl he
    cases l
    · simp [lessOrEqualV, hl, he]
    · simp [lessOrEqualV, hl]

/-- Claim C6, witness at numbers 2 and 3. -/
theorem claim_C6_witness :
    notEqualV 2 (.num 2) (.num 3) ⟨[], ""⟩ = .ok true ⟨[], ""⟩ ∧
    greaterOrEqualV 2 (.num 2) (.num 3) ⟨[], ""⟩ = .ok false ⟨[], ""⟩ ∧
    greaterV 2 (.num 2) (.num 3) ⟨[], ""⟩ = .ok false ⟨[], ""⟩ ∧
    lessOrEqualV 2 (.num 2) (.num 3) ⟨[], ""⟩ = .ok true ⟨[], ""⟩ := by
  have h := claim_C6_derived_comparisons 1 (.num 2) (.num 3) ⟨[], ""⟩
  refine ⟨h.1 false ⟨[], ""⟩ rfl, h.2.1 true ⟨[], ""⟩ rfl, ?_, ?_⟩
  · have := h.2.2.1 true ⟨[], ""⟩ false ⟨[], ""⟩ rfl rfl
    simpa using this
  · have := h.2.2.2 true ⟨[], ""⟩ false ⟨[], ""⟩ rfl rfl
    simpa using this

/-! ## Claim C7 — truthiness -/

/-- Claim C7: `IsTrue` returns a `Bool`'s own value, whether a `Number` is
non-zero, whether a `String` is non-empty, and `false` for every other
value — the empty holder (`None`), classes and class instances. -/
theorem claim_C7_truthiness :
    ∀ (b : Bool) (n : Int) (t : String) (c : Cls) (r : Nat),
      isTrue (.bool b) = b ∧
      (isTrue (.num n) = true ↔ n ≠ 0) ∧
      (isTrue (.str t) = true ↔ t ≠ "") ∧
      isTrue .none = false ∧
      isTrue (.cls c) = false ∧
      isTrue (.inst r) = false := by
  intro b n t c r
  refine ⟨rfl, ?_, ?_, rfl, rfl, rfl⟩
  · simp [isTrue]
  · simp [isTrue]

/-! ## Claim C8 — dotted-path variable lookup -/

/-- Claim C8: `VariableValue` looks the first name up in the scope and
walks on through instance field scopes; a missing name raises the
"var is not found" runtime error at its lookup step; the first value that
is not a `ClassInstance` terminates the walk and is returned even if path
components remain. -/
theorem claim_C8_variable_value (name : String) (rest : List String) (c : Closure)
    (s : EvalState) :
    (assocGet c name = Option.none →
        varWalk (name :: rest) c s = .error "var is not found") ∧
    (∀ v, assocGet c name = some v → (∀ r, v ≠ .inst r) →
        varWalk (name :: rest) c s = .ok v) ∧
    (∀ r i, assocGet c name = some (.inst r) → getInst s r = some i → rest ≠ [] →
        varWalk (name :: rest) c s = varWalk rest i.fields s) ∧
    (∀ r, assocGet c name = some (.inst r) →
        varWalk [name] c s = .ok (.inst r)) := by
  refine ⟨?_, ?_, ?_, ?_⟩
  · intro h
    cases rest with
    | nil => simp [varWalk, h]
    | cons r rs => simp [varWalk, h]
  · intro v hv hni
    cases rest with
    | nil => simp [varWalk, hv]
    | cons r rs =>
      cases v with
      | inst q => exact absurd rfl (hni q)
      | none => simp [varWalk, hv]
      | num n => simp [varWalk, hv]
      | str t => simp [varWalk, hv]
      | bool b => simp [varWalk, hv]
      | cls cl => simp [varWalk, hv]
  · intro r i hv hi hne
    cases rest with
    | nil => exact absurd rfl hne
    | cons r' rs => simp [varWalk, hv, hi]
  · intro r hv
    simp [varWalk, hv]

/-- Claim C8, witness: `a.b` where `a` is an instance whose field `b`
holds 5. -/
theorem claim_C8_witness :
    varWalk ["a", "b"] [("a", .inst 0)] ⟨[⟨noMethodsCls, [("b", .num 5)]⟩], ""⟩ =
      .ok (.num 5) := by
  have h := (claim_C8_variable_value "a" ["b"] [("a", .inst 0)]
      ⟨[⟨noMethodsCls, [("b", .num 5)]⟩], ""⟩).2.2.1 0 ⟨noMethodsCls, [("b", .num 5)]⟩
      rfl rfl (by simp)
  rw [h]
  rfl

/-! ## Claim C9 — method invocation -/

/-- Lift a body-execution result across the `Call` boundary (the callee's
closure is local to the call). -/
def liftCall : XRes → FRes Value
  | .ok v _ s => .ok v s
  | .ret v c s => .ret v c s
  | .err m => .err m
  | .timeout => .timeout

/-- Claim C9: a method call on an instance raises
`RuntimeError("Not implemented")` when the name does not resolve through
the class's resolution map or resolves to a method whose formal-parameter
count differs from the argument count; otherwise the body executes in a
fresh scope holding `self` bound to the instance by shared reference plus
each formal bound to the corresponding actual argument. -/
theorem claim_C9_method_call (fuel r : Nat) (name : String) (args : List Value)
    (s : EvalState) (i : Inst) (hins : getInst s r = some i) :
    (hasMethod i.cls name args.length = false →
        callMethod (fuel + 1) r name args s = .err "Not implemented") ∧
    (∀ m, getMethod i.cls name = some m → m.formals.length = args.length →
        callMethod (fuel + 1) r name args s =
          liftCall (exec fuel m.body (bindParams m.formals args r) s)) := by
  constructor
  · intro hno
    simp [callMethod, hins, hno]
  · intro m hm hlen
    have hyes : hasMethod i.cls name args.length = true := by
      simp [hasMethod, hm, hlen]
    simp only [callMethod, hins, hyes, if_true, hm]
    cases hx : exec fuel m.body (bindParams m.formals args r) s <;> simp [liftCall, hx]

/-- Claim C9, witness: calling `m` with the wrong and with the right arity. -/
theorem claim_C9_witness :
    callMethod 5 0 "m" [] oneParamHeap = .err "Not implemented" ∧
    callMethod 5 0 "m" [.num 3] oneParamHeap =
      liftCall (exec 4 (Stmt.methodBody (.retStmt (.variableValue ["x"])))
        (bindParams ["x"] [.num 3] 0) oneParamHeap) := by
  have h := claim_C9_method_call 4 0 "m" [] oneParamHeap ⟨oneParamCls, []⟩ rfl
  have h2 := claim_C9_method_call 4 0 "m" [.num 3] oneParamHeap ⟨oneParamCls, []⟩ rfl
  exact ⟨h.1 rfl, h2.2 (.mk "m" ["x"] (.methodBody (.retStmt (.variableValue ["x"])))) rfl rfl⟩

/-! ## Claim C10 — printing through `__str__` -/

/-- Claim C10: when the class resolves a `__str__` method, printing the
instance calls `__str__` with zero arguments and prints the returned
value; in particular a resolved `__str__` with one or more formal
parameters makes printing raise `RuntimeError("Not implemented")` instead
of falling back to the address form, which is used only when no `__str__`
exists. -/
theorem claim_C10_print_str (fuel r : Nat) (s : EvalState) (i : Inst)
    (hins : getInst s r = some i) :
    (∀ m, getMethod i.cls "__str__" = some m →
       (m.formals ≠ [] →
          printValue (fuel + 2) (.inst r) s = .err "Not implemented") ∧
       (∀ v s', callMethod (fuel + 1) r "__str__" [] s = .ok v s' →
          printValue (fuel + 2) (.inst r) s = printValue (fuel + 1) v s')) ∧
    (getMethod i.cls "__str__" = Option.none →
       printValue (fuel + 1) (.inst r) s = .ok () (pushOut s (addrString r))) := by
  constructor
  · intro m hm
    constructor
    · intro hformals
      have hno : hasMethod i.cls "__str__" 0 = false := by
        simp [hasMethod, hm, List.length_eq_zero, hformals]
      have hcall : callMethod (fuel + 1) r "__str__" [] s = .err "Not implemented" := by
        simp [callMethod, hins, hno]
      simp [printValue, hins, hm, hcall]
    · intro v s' hcall
      simp [printValue, hins, hm, hcall]
  · intro hm
    simp [printValue, hins, hm]

/-- Claim C10, witness: a one-parameter `__str__` makes printing raise;
without `__str__` the address form is printed. -/
theorem claim_C10_witness :
    printValue 10 (.inst 0) ⟨[⟨badStrCls, []⟩], ""⟩ = .err "Not implemented" ∧
    printValue 7 (.inst 0) ⟨[⟨noMethodsCls, []⟩], ""⟩ =
      .ok () (pushOut ⟨[⟨noMethodsCls, []⟩], ""⟩ (addrString 0)) := by
  have h := claim_C10_print_str 8 0 ⟨[⟨badStrCls, []⟩], ""⟩ ⟨badStrCls, []⟩ rfl
  have h2 := claim_C10_print_str 6 0 ⟨[⟨noMethodsCls, []⟩], ""⟩ ⟨noMethodsCls, []⟩ rfl
  exact ⟨(h.1 (.mk "__str__" ["x"] (.methodBody (.retStmt (.strConst "s")))) rfl).1
      (by simp [Mthd.formals]), h2.2 rfl⟩

/-! ## Lexer lemmas: each helper leaves a suffix of its input -/

theorem dropSpacesCount_suffix (l : List Char) : (dropSpacesCount l).2 <:+ l := by
  induction l with
  | nil => exact List.suffix_refl _
  | cons c rest ih =>
    by_cases hc : c = ' '
    · simp only [dropSpacesCount, hc, if_true]
      exact ih.trans (List.suffix_cons _ _)
    · simp only [dropSpacesCount, hc, if_false]
      exact List.suffix_refl _

theorem parseIndent_suffix (inp : List Char) (st : LexSt) :
    (parseIndent inp st).1 <:+ inp := by
  simp only [parseIndent]
  split <;> exact dropSpacesCount_suffix inp

theorem parseNewLine_suffix (inp : List Char) (st : LexSt) :
    (parseNewLine inp st).1 <:+ inp := by
  unfold parseNewLine
  cases inp with
  | nil => exact List.suffix_refl _
  | cons c rest =>
    by_cases hc : c = '\n'
    · simp only [hc, if_true]
      exact (parseIndent_suffix rest _).trans (List.suffix_cons _ _)
    · simp only [hc, if_false]
      exact List.suffix_refl _

theorem scanString_suffix_bounded (q : Char) (n : Nat) :
    ∀ (inp : List Char) (acc : String) (st : LexSt) (r : List Char) (st' : LexSt),
      inp.length ≤ n → scanString q inp acc st = .ok (r, st') → r <:+ inp := by
  induction n with
  | zero =>
    intro inp acc st r st' hlen h
    have : inp = [] := List.length_eq_zero.mp (Nat.le_zero.mp hlen)
    subst this
    have he : scanString q [] acc st =
        .ok ([], ⟨st.toks ++ [Tok.stringTok acc], st.bsc⟩) := by simp [scanString]
    rw [he] at h
    simp only [Except.ok.injEq, Prod.mk.injEq] at h
    simp [← h.1]
  | succ n ih =>
    intro inp acc st r st' hlen h
    cases inp with
    | nil =>
      have he : scanString q [] acc st =
          .ok ([], ⟨st.toks ++ [Tok.stringTok acc], st.bsc⟩) := by simp [scanString]
      rw [he] at h
      simp only [Except.ok.injEq, Prod.mk.injEq] at h
      simp [← h.1]
    | cons c rest =>
      by_cases hc : c = q
      · subst hc
        have he : scanString c (c :: rest) acc st =
            .ok (rest, ⟨st.toks ++ [Tok.stringTok acc], st.bsc⟩) := by
          conv_lhs => rw [scanString.eq_def]
          simp
        rw [he] at h
        simp only [Except.ok.injEq, Prod.mk.injEq] at h
        rw [← h.1]
        exact List.suffix_cons _ _
      · by_cases hb : c = '\\'
        · subst hb
          cases rest with
          | nil =>
            have he : scanString q ('\\' :: ([] : List Char)) acc st =
                .error "String parsing error" := by
              conv_lhs => rw [scanString.eq_def]
              simp [hc]
            rw [he] at h
            exact absurd h (by simp)
          | cons e rest' =>
            cases hesc : escapeChar e with
            | none =>
              have he : scanString q ('\\' :: e :: rest') acc st =
                  .error ("Unrecognized escape sequence \\" ++ String.singleton e) := by
                conv_lhs => rw [scanString.eq_def]
                simp [hc, hesc]
              rw [he] at h
              exact absurd h (by simp)
            | some ch =>
              have he : scanString q ('\\' :: e :: rest') acc st =
                  scanString q rest' (acc.push ch) st := by
                conv_lhs => rw [scanString.eq_def]
                simp [hc, hesc]
              rw [he] at h
              have hlen' : rest'.length ≤ n := by
                simp only [List.length_cons] at hlen
                omega
              exact (ih rest' (acc.push ch) st r st' hlen' h).trans
                ((List.suffix_cons _ _).trans (List.suffix_cons _ _))
        · by_cases hn : c = '\n' ∨ c = '\r'
          · have he : scanString q (c :: rest) acc st =
                .error "Unexpected end of line" := by
              conv_lhs => rw [scanString.eq_def]
              simp [hc, hb, hn]
            rw [he] at h
            exact absurd h (by simp)
          · have he : scanString q (c :: rest) acc st =
                scanString q rest (acc.push c) st := by
              conv_lhs => rw [scanString.eq_def]
              simp [hc, hb, hn]
            rw [he] at h
            have hlen' : rest.length ≤ n := by
              simp only [List.length_cons] at hlen
              omega
            exact (ih rest (acc.push c) st r st' hlen' h).trans (List.suffix_cons _ _)

theorem scanString_suffix (q : Char) (inp : List Char) (acc : String) (st : LexSt)
    (r : List Char) (st' : LexSt) (h : scanString q inp acc st = .ok (r, st')) :
    r <:+ inp :=
  scanString_suffix_bounded q inp.length inp acc st r st' (Nat.le_refl _) h

theorem parseStrings_suffix (inp : List Char) (st : LexSt) (r : List Char) (st' : LexSt)
    (h : parseStrings inp st = .ok (r, st')) : r <:+ inp := by
  cases inp with
  | nil =>
    simp only [parseStrings, Except.ok.injEq, Prod.mk.injEq] at h
    simp [← h.1]
  | cons q rest =>
    by_cases hq : q = '\'' ∨ q = '\"'
    · simp only [parseStrings, hq, if_true] at h
      exact (scanString_suffix q rest "" st r st' h).trans (List.suffix_cons _ _)
    · simp only [parseStrings, hq, if_false, Except.ok.injEq, Prod.mk.injEq] at h
      simp [← h.1]

theorem parseId_suffix (inp : List Char) (st : LexSt) : (parseId inp st).1 <:+ inp := by
  simp only [parseId]
  cases inp with
  | nil => exact List.suffix_refl _
  | cons c rest =>
    simp only [List.head?_cons]
    split
    · split <;> exact List.dropWhile_suffix _
    · exact List.suffix_refl _

theorem parseDoubleChars_suffix (inp : List Char) (st : LexSt) :
    (parseDoubleChars inp st).1 <:+ inp := by
  cases inp with
  | nil => exact List.suffix_refl _
  | cons a rest =>
    have htail : rest.tail <:+ a :: rest :=
      (List.tail_suffix rest).trans (List.suffix_cons _ _)
    simp only [parseDoubleChars]
    repeat' split
    all_goals first
      | exact htail
      | exact List.suffix_refl _

theorem dropUntilNl_suffix (l : List Char) : dropUntilNl l <:+ l := by
  induction l with
  | nil => exact List.suffix_refl _
  | cons c rest ih =>
    by_cases hc : c = '\n'
    · simp only [dropUntilNl, hc, if_true]
      exact List.suffix_refl _
    · simp only [dropUntilNl, hc, if_false]
      exact ih.trans (List.suffix_cons _ _)

theorem parseChars_suffix (inp : List Char) (st : LexSt) :
    (parseChars inp st).1 <:+ inp := by
  cases inp with
  | nil => exact List.suffix_refl _
  | cons c rest =>
    simp only [parseChars]
    repeat' split
    all_goals first
      | exact (dropUntilNl_suffix rest).trans (List.suffix_cons _ _)
      | exact List.suffix_cons _ _
      | exact List.suffix_refl _

theorem parseNumbers_suffix (inp : List Char) (st : LexSt) :
    (parseNumbers inp st).1 <:+ inp := by
  unfold parseNumbers
  cases inp with
  | nil => exact List.suffix_refl _
  | cons c rest =>
    simp only [List.head?_cons]
    split
    · exact List.dropWhile_suffix _
    · exact List.suffix_refl _

theorem skipSpaces_suffix (inp : List Char) : skipSpaces inp <:+ inp :=
  List.dropWhile_suffix _

theorem runHandlers_suffix (inp : List Char) (st : LexSt) (inp' : List Char) (st' : LexSt)
    (h : runHandlers inp st = .ok (inp', st')) : inp' <:+ inp := by
  simp only [runHandlers] at h
  cases hps : parseStrings (parseNewLine inp st).1 (parseNewLine inp st).2 with
  | error m =>
    rw [hps] at h
    exact absurd h (by simp)
  | ok p2 =>
    rw [hps] at h
    simp only [Except.ok.injEq, Prod.mk.injEq] at h
    have s6 : inp' <:+ p2.1 := by
      rw [← h.1]
      exact (skipSpaces_suffix _).trans ((parseNumbers_suffix _ _).trans
        ((parseChars_suffix _ _).trans ((parseDoubleChars_suffix _ _).trans
          (parseId_suffix _ _))))
    have hp2 : p2.1 <:+ (parseNewLine inp st).1 :=
      parseStrings_suffix _ _ p2.1 p2.2 hps
    exact s6.trans (hp2.trans (parseNewLine_suffix inp st))

/-! ## Indent/dedent balance machinery -/

/-- Number of occurrences of a token in a list. -/
def cntTok (t : Tok) : List Tok → Nat
  | [] => 0
  | x :: xs => (if x = t then 1 else 0) + cntTok t xs

theorem cntTok_append (t : Tok) (l m : List Tok) :
    cntTok t (l ++ m) = cntTok t l + cntTok t m := by
  induction l with
  | nil => simp [cntTok]
  | cons x xs ih => simp [cntTok, ih]; omega

theorem cntTok_replicate (t u : Tok) (k : Nat) :
    cntTok t (List.replicate k u) = if u = t then k else 0 := by
  induction k with
  | zero => simp [cntTok]
  | succ k ih =>
    simp only [List.replicate_succ, cntTok, ih]
    by_cases h : u = t
    · simp [h]
      omega
    · simp [h]

theorem cntTok_eq_zero (t : Tok) (ts : List Tok) (h : ∀ x ∈ ts, x ≠ t) :
    cntTok t ts = 0 := by
  induction ts with
  | nil => rfl
  | cons x xs ih =>
    have hx : x ≠ t := h x (by simp)
    simp [cntTok, hx, ih (fun y hy => h y (by simp [hy]))]

theorem balRun_append (i d : Nat) (l m : List Tok) :
    balRun i d (l ++ m) =
      (balRun i d l &&
        balRun (i + cntTok Tok.indent l) (d + cntTok Tok.dedent l) m) := by
  induction l generalizing i d with
  | nil => simp [balRun, cntTok]
  | cons t ts ih =>
    by_cases hi : t = Tok.indent
    · subst hi
      have e1 : balRun i d ((Tok.indent :: ts) ++ m) =
          (decide (d ≤ i + 1) && balRun (i + 1) d (ts ++ m)) := rfl
      have e2 : balRun i d (Tok.indent :: ts) =
          (decide (d ≤ i + 1) && balRun (i + 1) d ts) := rfl
      have e3 : cntTok Tok.indent (Tok.indent :: ts) = 1 + cntTok Tok.indent ts := rfl
      have e4 : cntTok Tok.dedent (Tok.indent :: ts) = 0 + cntTok Tok.dedent ts := rfl
      rw [e1, e2, e3, e4, ih, Bool.and_assoc,
        show i + (1 + cntTok Tok.indent ts) = i + 1 + cntTok Tok.indent ts from by omega,
        show d + (0 + cntTok Tok.dedent ts) = d + cntTok Tok.dedent ts from by omega]
    · by_cases hd : t = Tok.dedent
      · subst hd
        have e1 : balRun i d ((Tok.dedent :: ts) ++ m) =
            (decide (d + 1 ≤ i) && balRun i (d + 1) (ts ++ m)) := rfl
        have e2 : balRun i d (Tok.dedent :: ts) =
            (decide (d + 1 ≤ i) && balRun i (d + 1) ts) := rfl
        have e3 : cntTok Tok.indent (Tok.dedent :: ts) = 0 + cntTok Tok.indent ts := rfl
        have e4 : cntTok Tok.dedent (Tok.dedent :: ts) = 1 + cntTok Tok.dedent ts := rfl
        rw [e1, e2, e3, e4, ih, Bool.and_assoc,
          show i + (0 + cntTok Tok.indent ts) = i + cntTok Tok.indent ts from by omega,
          show d + (1 + cntTok Tok.dedent ts) = d + 1 + cntTok Tok.dedent ts from by omega]
      · have e1 : balRun i d ((t :: ts) ++ m) =
            (decide ((if t = Tok.dedent then d + 1 else d) ≤
                (if t = Tok.indent then i + 1 else i)) &&
              balRun (if t = Tok.indent then i + 1 else i)
                (if t = Tok.dedent then d + 1 else d) (ts ++ m)) := rfl
        have e2 : balRun i d (t :: ts) =
            (decide ((if t = Tok.dedent then d + 1 else d) ≤
                (if t = Tok.indent then i + 1 else i)) &&
              balRun (if t = Tok.indent then i + 1 else i)
                (if t = Tok.dedent then d + 1 else d) ts) := rfl
        have e3 : cntTok Tok.indent (t :: ts) = 0 + cntTok Tok.indent ts := by
          simp [cntTok, hi]
        have e4 : cntTok Tok.dedent (t :: ts) = 0 + cntTok Tok.dedent ts := by
          simp [cntTok, hd]
        rw [e1, e2, e3, e4, if_neg hi, if_neg hd, ih, Bool.and_assoc,
          show i + (0 + cntTok Tok.indent ts) = i + cntTok Tok.indent ts from by omega,
          show d + (0 + cntTok Tok.dedent ts) = d + cntTok Tok.dedent ts from by omega]

theorem balRun_no_ind_ded (i d : Nat) (ts : List Tok)
    (hts : ∀ t ∈ ts, t ≠ Tok.indent ∧ t ≠ Tok.dedent) (hdi : d ≤ i) :
    balRun i d ts = true := by
  induction ts with
  | nil => rfl
  | cons t ts ih =>
    have ht := hts t (by simp)
    have e : balRun i d (t :: ts) = (decide (d ≤ i) && balRun i d ts) := by
      have e1 : balRun i d (t :: ts) =
          (decide ((if t = Tok.dedent then d + 1 else d) ≤
              (if t = Tok.indent then i + 1 else i)) &&
            balRun (if t = Tok.indent then i + 1 else i)
              (if t = Tok.dedent then d + 1 else d) ts) := rfl
      rw [e1, if_neg ht.1, if_neg ht.2]
    rw [e]
    simp only [Bool.and_eq_true, decide_eq_true_eq]
    exact ⟨hdi, ih (fun y hy => hts y (by simp [hy]))⟩

theorem balRun_replicate_indent (i d k : Nat) (hdi : d ≤ i) :
    balRun i d (List.replicate k Tok.indent) = true := by
  induction k generalizing i with
  | zero => rfl
  | succ k ih =>
    have e : balRun i d (List.replicate (k + 1) Tok.indent) =
        (decide (d ≤ i + 1) && balRun (i + 1) d (List.replicate k Tok.indent)) := rfl
    rw [e]
    simp only [Bool.and_eq_true, decide_eq_true_eq]
    exact ⟨by omega, ih (i + 1) (by omega)⟩

theorem balRun_replicate_dedent (i d k : Nat) (hdk : d + k ≤ i) :
    balRun i d (List.replicate k Tok.dedent) = true := by
  induction k generalizing d with
  | zero => rfl
  | succ k ih =>
    have e : balRun i d (List.replicate (k + 1) Tok.dedent) =
        (decide (d + 1 ≤ i) && balRun i (d + 1) (List.replicate k Tok.dedent)) := rfl
    rw [e]
    simp only [Bool.and_eq_true, decide_eq_true_eq]
    exact ⟨by omega, ih (d + 1) (by omega)⟩

theorem balRun_le (l : List Tok) (i d : Nat) (h : balRun i d l = true) (hdi : d ≤ i) :
    d + cntTok Tok.dedent l ≤ i + cntTok Tok.indent l := by
  induction l generalizing i d with
  | nil => simp [cntTok]; omega
  | cons t ts ih =>
    have e1 : balRun i d (t :: ts) =
        (decide ((if t = Tok.dedent then d + 1 else d) ≤
            (if t = Tok.indent then i + 1 else i)) &&
          balRun (if t = Tok.indent then i + 1 else i)
            (if t = Tok.dedent then d + 1 else d) ts) := rfl
    rw [e1] at h
    simp only [Bool.and_eq_true, decide_eq_true_eq] at h
    have hrec := ih _ _ h.2 h.1
    by_cases hi : t = Tok.indent
    · subst hi
      have e3 : cntTok Tok.indent (Tok.indent :: ts) = 1 + cntTok Tok.indent ts := rfl
      have e4 : cntTok Tok.dedent (Tok.indent :: ts) = 0 + cntTok Tok.dedent ts := rfl
      rw [e3, e4]
      simp at hrec
      omega
    · by_cases hd : t = Tok.dedent
      · subst hd
        have e3 : cntTok Tok.indent (Tok.dedent :: ts) = 0 + cntTok Tok.indent ts := rfl
        have e4 : cntTok Tok.dedent (Tok.dedent :: ts) = 1 + cntTok Tok.dedent ts := rfl
        rw [e3, e4]
        simp at hrec
        omega
      · have e3 : cntTok Tok.indent (t :: ts) = 0 + cntTok Tok.indent ts := by
          simp [cntTok, hi]
        have e4 : cntTok Tok.dedent (t :: ts) = 0 + cntTok Tok.dedent ts := by
          simp [cntTok, hd]
        rw [e3, e4]
        simp only [if_neg hi, if_neg hd] at hrec
        omega

/-- Invariant tying the tracked indentation level to the emitted tokens:
the token buffer is prefix-balanced and `begin_spaces_count_` is twice the
outstanding indent depth. -/
def LexInv (st : LexSt) : Prop :=
  balancedB st.toks = true ∧
  st.bsc = 2 * ((cntTok Tok.indent st.toks : Int) - (cntTok Tok.dedent st.toks : Int))

/-- Tokens other than indent/dedent can be appended freely. -/
theorem LexInv_append (st : LexSt) (ts : List Tok) (h : LexInv st)
    (hts : ∀ t ∈ ts, t ≠ Tok.indent ∧ t ≠ Tok.dedent) :
    LexInv ⟨st.toks ++ ts, st.bsc⟩ := by
  obtain ⟨hbal, hbsc⟩ := h
  constructor
  · show balRun 0 0 (st.toks ++ ts) = true
    rw [balRun_append]
    simp only [Bool.and_eq_true]
    refine ⟨hbal, ?_⟩
    refine balRun_no_ind_ded _ _ ts hts ?_
    have := balRun_le st.toks 0 0 hbal (by omega)
    omega
  · show st.bsc = _
    rw [cntTok_append, cntTok_append,
      cntTok_eq_zero Tok.indent ts (fun x hx => (hts x hx).1),
      cntTok_eq_zero Tok.dedent ts (fun x hx => (hts x hx).2)]
    simpa using hbsc

theorem linesOk_cons (c : Char) (l : List Char) (h : linesOk (c :: l) = true) :
    linesOk l = true := by
  by_cases hc : c = '\n'
  · subst hc
    rw [show linesOk ('\n' :: l) =
        ((blankOrComment (dropSpacesCount l).2.head? ||
          (dropSpacesCount l).1 % 2 == 0) && linesOk l) from by
      conv_lhs => rw [linesOk.eq_def]
      simp] at h
    simp only [Bool.and_eq_true] at h
    exact h.2
  · rw [show linesOk (c :: l) = linesOk l from by
      conv_lhs => rw [linesOk.eq_def]
      simp [hc]] at h
    exact h

theorem linesOk_nl (l : List Char) (h : linesOk ('\n' :: l) = true) :
    blankOrComment (dropSpacesCount l).2.head? = true ∨
      (dropSpacesCount l).1 % 2 = 0 := by
  rw [show linesOk ('\n' :: l) =
      ((blankOrComment (dropSpacesCount l).2.head? ||
        (dropSpacesCount l).1 % 2 == 0) && linesOk l) from by
    conv_lhs => rw [linesOk.eq_def]
    simp] at h
  simp only [Bool.and_eq_true, Bool.or_eq_true] at h
  rcases h.1 with hb | he
  · exact Or.inl hb
  · exact Or.inr (by simpa using he)

theorem linesOk_suffix (l m : List Char) (h : linesOk l = true) (hm : m <:+ l) :
    linesOk m = true := by
  obtain ⟨p, hp⟩ := hm
  subst hp
  revert h
  induction p with
  | nil => intro h; simpa using h
  | cons c cs ih =>
    intro h
    exact ih (linesOk_cons c (cs ++ m) (by simpa using h))

/-! ## Handler effects on the lexer state -/

/-- Token lists free of indent/dedent. -/
def noIndDed (ts : List Tok) : Prop :=
  ∀ t ∈ ts, t ≠ Tok.indent ∧ t ≠ Tok.dedent

set_option maxHeartbeats 1000000 in
theorem keywordTok_no_ind (s : String) (t : Tok) (h : keywordTok s = some t) :
    t ≠ Tok.indent ∧ t ≠ Tok.dedent := by
  unfold keywordTok at h
  repeat' split at h
  all_goals first
    | (injection h with h2; subst h2; exact ⟨by decide, by decide⟩)
    | injection h

theorem parseId_ext (inp : List Char) (st : LexSt) :
    ∃ ts, (parseId inp st).2 = ⟨st.toks ++ ts, st.bsc⟩ ∧ noIndDed ts := by
  cases inp with
  | nil => exact ⟨[], by simp [parseId], by simp [noIndDed]⟩
  | cons c rest =>
    simp only [parseId, List.head?_cons]
    split
    · split
      · rename_i t ht
        exact ⟨[t], rfl, by
          intro x hx
          simp at hx
          subst hx
          exact keywordTok_no_ind _ _ ht⟩
      · exact ⟨[Tok.id (String.mk ((c :: rest).takeWhile fun d => isAlnumA d || d = '_'))],
          rfl, by simp [noIndDed]⟩
    · exact ⟨[], by simp, by simp [noIndDed]⟩

theorem parseDoubleChars_ext (inp : List Char) (st : LexSt) :
    ∃ ts, (parseDoubleChars inp st).2 = ⟨st.toks ++ ts, st.bsc⟩ ∧ noIndDed ts := by
  cases inp with
  | nil => exact ⟨[], by simp [parseDoubleChars], by simp [noIndDed]⟩
  | cons a rest =>
    simp only [parseDoubleChars]
    repeat' split
    all_goals first
      | exact ⟨[Tok.eqT], rfl, by simp [noIndDed]⟩
      | exact ⟨[Tok.notEqT], rfl, by simp [noIndDed]⟩
      | exact ⟨[Tok.greaterOrEqT], rfl, by simp [noIndDed]⟩
      | exact ⟨[Tok.lessOrEqT], rfl, by simp [noIndDed]⟩
      | exact ⟨[], by simp, by simp [noIndDed]⟩

theorem parseChars_ext (inp : List Char) (st : LexSt) :
    ∃ ts, (parseChars inp st).2 = ⟨st.toks ++ ts, st.bsc⟩ ∧ noIndDed ts := by
  cases inp with
  | nil => exact ⟨[], by simp [parseChars], by simp [noIndDed]⟩
  | cons c rest =>
    simp only [parseChars]
    repeat' split
    all_goals first
      | exact ⟨[Tok.charTok c], rfl, by simp [noIndDed]⟩
      | exact ⟨[], by simp, by simp [noIndDed]⟩

theorem parseNumbers_ext (inp : List Char) (st : LexSt) :
    ∃ ts, (parseNumbers inp st).2 = ⟨st.toks ++ ts, st.bsc⟩ ∧ noIndDed ts := by
  cases inp with
  | nil => exact ⟨[], by simp [parseNumbers], by simp [noIndDed]⟩
  | cons c rest =>
    simp only [parseNumbers, List.head?_cons]
    split
    · exact ⟨[Tok.number (digitsVal ((c :: rest).takeWhile isDigitA) : Int)], rfl,
        by simp [noIndDed]⟩
    · exact ⟨[], by simp, by simp [noIndDed]⟩

theorem scanString_ext_bounded (q : Char) (n : Nat) :
    ∀ (inp : List Char) (acc : String) (st : LexSt) (r : List Char) (st' : LexSt),
      inp.length ≤ n → scanString q inp acc st = .ok (r, st') →
      ∃ a, st' = ⟨st.toks ++ [Tok.stringTok a], st.bsc⟩ := by
  induction n with
  | zero =>
    intro inp acc st r st' hlen h
    have : inp = [] := List.length_eq_zero.mp (Nat.le_zero.mp hlen)
    subst this
    have he : scanString q [] acc st =
        .ok ([], ⟨st.toks ++ [Tok.stringTok acc], st.bsc⟩) := by simp [scanString]
    rw [he] at h
    simp only [Except.ok.injEq, Prod.mk.injEq] at h
    exact ⟨acc, h.2.symm⟩
  | succ n ih =>
    intro inp acc st r st' hlen h
    cases inp with
    | nil =>
      have he : scanString q [] acc st =
          .ok ([], ⟨st.toks ++ [Tok.stringTok acc], st.bsc⟩) := by simp [scanString]
      rw [he] at h
      simp only [Except.ok.injEq, Prod.mk.injEq] at h
      exact ⟨acc, h.2.symm⟩
    | cons c rest =>
      by_cases hc : c = q
      · subst hc
        have he : scanString c (c :: rest) acc st =
            .ok (rest, ⟨st.toks ++ [Tok.stringTok acc], st.bsc⟩) := by
          conv_lhs => rw [scanString.eq_def]
          simp
        rw [he] at h
        simp only [Except.ok.injEq, Prod.mk.injEq] at h
        exact ⟨acc, h.2.symm⟩
      · by_cases hb : c = '\\'
        · subst hb
          cases rest with
          | nil =>
            have he : scanString q ('\\' :: ([] : List Char)) acc st =
                .error "String parsing error" := by
              conv_lhs => rw [scanString.eq_def]
              simp [hc]
            rw [he] at h
            exact absurd h (by simp)
          | cons e rest' =>
            cases hesc : escapeChar e with
            | none =>
              have he : scanString q ('\\' :: e :: rest') acc st =
                  .error ("Unrecognized escape sequence \\" ++ String.singleton e) := by
                conv_lhs => rw [scanString.eq_def]
                simp [hc, hesc]
              rw [he] at h
              exact absurd h (by simp)
            | some ch =>
              have he : scanString q ('\\' :: e :: rest') acc st =
                  scanString q rest' (acc.push ch) st := by
                conv_lhs => rw [scanString.eq_def]
                simp [hc, hesc]
              rw [he] at h
              have hlen' : rest'.length ≤ n := by
                simp only [List.length_cons] at hlen
                omega
              exact ih rest' (acc.push ch) st r st' hlen' h
        · by_cases hn : c = '\n' ∨ c = '\r'
          · have he : scanString q (c :: rest) acc st =
                .error "Unexpected end of line" := by
              conv_lhs => rw [scanString.eq_def]
              simp [hc, hb, hn]
            rw [he] at h
            exact absurd h (by simp)
          · have he : scanString q (c :: rest) acc st =
                scanString q rest (acc.push c) st := by
              conv_lhs => rw [scanString.eq_def]
              simp [hc, hb, hn]
            rw [he] at h
            have hlen' : rest.length ≤ n := by
              simp only [List.length_cons] at hlen
              omega
            exact ih rest (acc.push c) st r st' hlen' h

theorem parseStrings_ext (inp : List Char) (st : LexSt) (r : List Char) (st' : LexSt)
    (h : parseStrings inp st = .ok (r, st')) :
    ∃ ts, st' = ⟨st.toks ++ ts, st.bsc⟩ ∧ noIndDed ts := by
  cases inp with
  | nil =>
    simp only [parseStrings, Except.ok.injEq, Prod.mk.injEq] at h
    exact ⟨[], by simp [← h.2], by simp [noIndDed]⟩
  | cons q rest =>
    by_cases hq : q = '\'' ∨ q = '\"'
    · simp only [parseStrings, hq, if_true] at h
      obtain ⟨a, ha⟩ := scanString_ext_bounded q rest.length rest "" st r st'
        (Nat.le_refl _) h
      exact ⟨[Tok.stringTok a], ha, by simp [noIndDed]⟩
    · simp only [parseStrings, hq, if_false, Except.ok.injEq, Prod.mk.injEq] at h
      exact ⟨[], by simp [← h.2], by simp [noIndDed]⟩

/-! ## The indentation invariant -/

theorem parseIndent_inv (inp : List Char) (st : LexSt) (h : LexInv st)
    (hcond : blankOrComment (dropSpacesCount inp).2.head? = true ∨
      (dropSpacesCount inp).1 % 2 = 0) :
    LexInv (parseIndent inp st).2 := by
  simp only [parseIndent]
  by_cases hb : blankOrComment (dropSpacesCount inp).2.head? = true
  · simpa [hb] using h
  · have heven : (dropSpacesCount inp).1 % 2 = 0 := by
      rcases hcond with hc | hc
      · exact absurd hc hb
      · exact hc
    simp only [hb, Bool.false_eq_true, if_false]
    obtain ⟨hbal, hbsc⟩ := h
    obtain ⟨hh, hhn⟩ : ∃ hn2, (dropSpacesCount inp).1 = 2 * hn2 :=
      ⟨(dropSpacesCount inp).1 / 2, by omega⟩
    have hdle : cntTok Tok.dedent st.toks ≤ cntTok Tok.indent st.toks := by
      have := balRun_le st.toks 0 0 hbal (by omega)
      omega
    have hdelta_eq : Int.tdiv (((dropSpacesCount inp).1 : Int) - st.bsc) 2 =
        (hh : Int) - ((cntTok Tok.indent st.toks : Int) -
          (cntTok Tok.dedent st.toks : Int)) := by
      rw [hbsc, hhn]
      push_cast
      rw [show ((2 * (hh : Int)) - 2 * ((cntTok Tok.indent st.toks : Int) -
          (cntTok Tok.dedent st.toks : Int))) = 2 * ((hh : Int) -
          ((cntTok Tok.indent st.toks : Int) - (cntTok Tok.dedent st.toks : Int)))
        from by ring]
      exact Int.mul_tdiv_cancel_left _ (by norm_num)
    by_cases hpos : Int.tdiv (((dropSpacesCount inp).1 : Int) - st.bsc) 2 > 0
    · have hpos2 : (0 : Int) < (hh : Int) - ((cntTok Tok.indent st.toks : Int) -
          (cntTok Tok.dedent st.toks : Int)) := by
        rw [← hdelta_eq]
        exact hpos
      have hk : (((Int.tdiv (((dropSpacesCount inp).1 : Int) - st.bsc) 2).natAbs : Nat) :
          Int) = (hh : Int) - ((cntTok Tok.indent st.toks : Int) -
          (cntTok Tok.dedent st.toks : Int)) := by
        rw [hdelta_eq]
        omega
      constructor
      · show balRun 0 0 (st.toks ++ List.replicate _ _) = true
        rw [if_pos hpos, balRun_append]
        simp only [Bool.and_eq_true]
        exact ⟨hbal, balRun_replicate_indent _ _ _ (by omega)⟩
      · show ((dropSpacesCount inp).1 : Int) = _
        rw [if_pos hpos, cntTok_append, cntTok_append, cntTok_replicate, cntTok_replicate]
        simp only [eq_self_iff_true, if_true, if_neg (by decide : ¬Tok.indent = Tok.dedent)]
        generalize ((Int.tdiv (((dropSpacesCount inp).1 : Int) - st.bsc) 2).natAbs : Nat) = k
          at hk ⊢
        omega
    · have hpos2 : ¬((0 : Int) < (hh : Int) - ((cntTok Tok.indent st.toks : Int) -
          (cntTok Tok.dedent st.toks : Int))) := by
        rw [← hdelta_eq]
        exact hpos
      have hk : (((Int.tdiv (((dropSpacesCount inp).1 : Int) - st.bsc) 2).natAbs : Nat) :
          Int) = ((cntTok Tok.indent st.toks : Int) -
          (cntTok Tok.dedent st.toks : Int)) - (hh : Int) := by
        rw [hdelta_eq]
        omega
      constructor
      · show balRun 0 0 (st.toks ++ List.replicate _ _) = true
        rw [if_neg hpos, balRun_append]
        simp only [Bool.and_eq_true]
        refine ⟨hbal, balRun_replicate_dedent _ _ _ ?_⟩
        generalize ((Int.tdiv (((dropSpacesCount inp).1 : Int) - st.bsc) 2).natAbs : Nat) = k
          at hk ⊢
        omega
      · show ((dropSpacesCount inp).1 : Int) = _
        rw [if_neg hpos, cntTok_append, cntTok_append, cntTok_replicate, cntTok_replicate]
        simp only [eq_self_iff_true, if_true, if_neg (by decide : ¬Tok.dedent = Tok.indent)]
        generalize ((Int.tdiv (((dropSpacesCount inp).1 : Int) - st.bsc) 2).natAbs : Nat) = k
          at hk ⊢
        omega

theorem parseNewLine_inv (inp : List Char) (st : LexSt) (hl : linesOk inp = true)
    (h : LexInv st) : LexInv (parseNewLine inp st).2 := by
  cases inp with
  | nil => exact h
  | cons c rest =>
    by_cases hc : c = '\n'
    · subst hc
      simp only [parseNewLine, if_pos rfl]
      have hst2 : LexInv (match st.toks.getLast? with
          | Option.none => st
          | some t =>
            if t = Tok.newline then st else ⟨st.toks ++ [Tok.newline], st.bsc⟩) := by
        cases hlast : st.toks.getLast? with
        | none => exact h
        | some t =>
          by_cases ht : t = Tok.newline
          · simp only [ht, if_pos rfl]
            exact h
          · simp only [if_neg ht]
            refine LexInv_append st [Tok.newline] h ?_
            intro x hx
            simp only [List.mem_singleton] at hx
            subst hx
            exact ⟨by decide, by decide⟩
      exact parseIndent_inv rest _ hst2 (linesOk_nl rest hl)
    · simp only [parseNewLine, if_neg hc]
      exact h

theorem runHandlers_inv (inp : List Char) (st : LexSt) (inp' : List Char) (st' : LexSt)
    (hl : linesOk inp = true) (h : LexInv st)
    (hr : runHandlers inp st = .ok (inp', st')) : LexInv st' := by
  simp only [runHandlers] at hr
  cases hps : parseStrings (parseNewLine inp st).1 (parseNewLine inp st).2 with
  | error m =>
    rw [hps] at hr
    exact absurd hr (by simp)
  | ok p2 =>
    rw [hps] at hr
    simp only [Except.ok.injEq, Prod.mk.injEq] at hr
    have h1 : LexInv (parseNewLine inp st).2 := parseNewLine_inv inp st hl h
    obtain ⟨ts2, hts2, hno2⟩ := parseStrings_ext _ _ p2.1 p2.2 hps
    have h2 : LexInv p2.2 := by
      rw [hts2]
      exact LexInv_append _ ts2 h1 hno2
    obtain ⟨ts3, hts3, hno3⟩ := parseId_ext p2.1 p2.2
    have h3 : LexInv (parseId p2.1 p2.2).2 := by
      rw [hts3]
      exact LexInv_append _ _ h2 hno3
    obtain ⟨ts4, hts4, hno4⟩ :=
      parseDoubleChars_ext (parseId p2.1 p2.2).1 (parseId p2.1 p2.2).2
    have h4 : LexInv (parseDoubleChars (parseId p2.1 p2.2).1 (parseId p2.1 p2.2).2).2 := by
      rw [hts4]
      exact LexInv_append _ _ h3 hno4
    obtain ⟨ts5, hts5, hno5⟩ := parseChars_ext
      (parseDoubleChars (parseId p2.1 p2.2).1 (parseId p2.1 p2.2).2).1
      (parseDoubleChars (parseId p2.1 p2.2).1 (parseId p2.1 p2.2).2).2
    have h5 : LexInv (parseChars
        (parseDoubleChars (parseId p2.1 p2.2).1 (parseId p2.1 p2.2).2).1
        (parseDoubleChars (parseId p2.1 p2.2).1 (parseId p2.1 p2.2).2).2).2 := by
      rw [hts5]
      exact LexInv_append _ _ h4 hno5
    obtain ⟨ts6, hts6, hno6⟩ := parseNumbers_ext
      (parseChars (parseDoubleChars (parseId p2.1 p2.2).1 (parseId p2.1 p2.2).2).1
        (parseDoubleChars (parseId p2.1 p2.2).1 (parseId p2.1 p2.2).2).2).1
      (parseChars (parseDoubleChars (parseId p2.1 p2.2).1 (parseId p2.1 p2.2).2).1
        (parseDoubleChars (parseId p2.1 p2.2).1 (parseId p2.1 p2.2).2).2).2
    have h6 : LexInv (parseNumbers
        (parseChars (parseDoubleChars (parseId p2.1 p2.2).1 (parseId p2.1 p2.2).2).1
          (parseDoubleChars (parseId p2.1 p2.2).1 (parseId p2.1 p2.2).2).2).1
        (parseChars (parseDoubleChars (parseId p2.1 p2.2).1 (parseId p2.1 p2.2).2).1
          (parseDoubleChars (parseId p2.1 p2.2).1 (parseId p2.1 p2.2).2).2).2).2 := by
      rw [hts6]
      exact LexInv_append _ _ h5 hno6
    rw [← hr.2]
    exact h6

theorem finishToks_balanced (st : LexSt) (h : LexInv st) :
    balancedB (finishToks st) = true := by
  have heof : ∀ x ∈ [Tok.eof], x ≠ Tok.indent ∧ x ≠ Tok.dedent := by
    intro x hx
    simp only [List.mem_singleton] at hx
    subst hx
    exact ⟨by decide, by decide⟩
  unfold finishToks
  cases hlast : st.toks.getLast? with
  | none => exact (LexInv_append st [Tok.eof] h heof).1
  | some t =>
    by_cases ht : t = Tok.newline ∨ t = Tok.dedent
    · simp only [if_pos ht]
      exact (LexInv_append st [Tok.eof] h heof).1
    · simp only [if_neg ht]
      have h1 : LexInv ⟨st.toks ++ [Tok.newline], st.bsc⟩ := by
        refine LexInv_append st [Tok.newline] h ?_
        intro x hx
        simp only [List.mem_singleton] at hx
        subst hx
        exact ⟨by decide, by decide⟩
      exact (LexInv_append ⟨st.toks ++ [Tok.newline], st.bsc⟩ [Tok.eof] h1 heof).1

theorem lexLoop_balanced (fuel : Nat) :
    ∀ (inp : List Char) (st : LexSt), linesOk inp = true → LexInv st →
      ∀ toks, lexLoop fuel inp st = .ok toks → balancedB toks = true := by
  induction fuel with
  | zero =>
    intro inp st hl h toks hr
    cases inp with
    | nil =>
      have he : lexLoop 0 ([] : List Char) st = .ok (finishToks st) := rfl
      rw [he] at hr
      simp only [LexResult.ok.injEq] at hr
      rw [← hr]
      exact finishToks_balanced st h
    | cons c rest => exact absurd hr (by simp [lexLoop])
  | succ fuel ih =>
    intro inp st hl h toks hr
    cases inp with
    | nil =>
      have he : lexLoop (fuel + 1) ([] : List Char) st = .ok (finishToks st) := rfl
      rw [he] at hr
      simp only [LexResult.ok.injEq] at hr
      rw [← hr]
      exact finishToks_balanced st h
    | cons c rest =>
      have he : lexLoop (fuel + 1) (c :: rest) st =
          (match runHandlers (c :: rest) st with
           | .error m => .failed m
           | .ok (inp2, st2) =>
             if inp2.length < rest.length + 1 then lexLoop fuel inp2 st2
             else .stuck) := rfl
      rw [he] at hr
      cases hrh : runHandlers (c :: rest) st with
      | error m =>
        rw [hrh] at hr
        exact absurd hr (by simp)
      | ok p =>
        obtain ⟨inp2, st2⟩ := p
        rw [hrh] at hr
        dsimp only at hr
        by_cases hlt : inp2.length < rest.length + 1
        · rw [if_pos hlt] at hr
          have hsuf : inp2 <:+ c :: rest := runHandlers_suffix _ _ inp2 st2 hrh
          exact ih inp2 st2 (linesOk_suffix _ _ hl hsuf)
            (runHandlers_inv _ _ inp2 st2 hl h hrh) toks hr
        · rw [if_neg hlt] at hr
          exact absurd hr (by simp)

/-! ## Claim C4 — indent/dedent balance -/

/-- Input whose lines carry 0, 1, 4 and 0 leading spaces: the odd
indentation makes the truncating division emit one `Indent` (1 → 4) but
two `Dedent`s (4 → 0). -/
def oddIndentInput : List Char := "a\n b\n    c\nd".toList

/-- Token stream the lexer produces for `oddIndentInput`. -/
def oddIndentToks : List Tok :=
  [.id "a", .newline, .id "b", .newline, .indent, .id "c", .newline,
   .dedent, .dedent, .id "d", .newline, .eof]

/-- Claim C4 counterexample: on lines indented by 1, 4 and 0 spaces the
lexer emits one `Indent` and then two `Dedent`s, so the prefix ending at
the second `Dedent` has more `Dedent`s than `Indent`s — the claimed
balance invariant fails for odd indentation under the truncating
division `delta = (new_spaces - tracked_spaces) / 2`. -/
theorem claim_C4_counterexample :
    lex oddIndentInput = .ok oddIndentToks ∧ balancedB oddIndentToks = false :=
  ⟨rfl, rfl⟩

/-- Claim C4 (amended): provided every line's leading-space run (as
counted by `ParseIndent` after each newline, ignoring blank and comment
lines) is a multiple of the 2-space indent unit, the number of `Dedent`
tokens in every prefix of the emitted token stream never exceeds the
number of `Indent` tokens in it. -/
theorem claim_C4_amended (inp : List Char) (toks : List Tok)
    (hl : linesOk inp = true) (h : lex inp = .ok toks) : balancedB toks = true := by
  refine lexLoop_balanced inp.length inp ⟨[], 0⟩ hl ⟨rfl, ?_⟩ toks h
  simp [cntTok]

/-- Claim C4 amended, witness on an evenly indented input. -/
theorem claim_C4_witness :
    linesOk "a\n  b\nc".toList = true ∧
    balancedB [Tok.id "a", Tok.newline, Tok.indent, Tok.id "b", Tok.newline,
      Tok.dedent, Tok.id "c", Tok.newline, Tok.eof] = true :=
  ⟨rfl, claim_C4_amended "a\n  b\nc".toList _ rfl rfl⟩

/-! ## Claim C5 — lexer totality and the trailing newline -/

/-- Claim C5 counterexample: no lexer helper consumes a tab character, so
on the input consisting of one tab the token loop makes no progress — the
C++ `while` repeats the same iteration forever and no token sequence
ending in `Eof` is ever produced. -/
theorem claim_C5_counterexample : lex ['\t'] = .stuck :=
  rfl

/-! ## Progress of the token loop on handled characters -/

theorem parseNewLine_id (c : Char) (rest : List Char) (st : LexSt) (hc : ¬c = '\n') :
    parseNewLine (c :: rest) st = (c :: rest, st) := by
  simp [parseNewLine, hc]

theorem parseStrings_id (c : Char) (rest : List Char) (st : LexSt)
    (hq : ¬(c = '\'' ∨ c = '\"')) :
    parseStrings (c :: rest) st = .ok (c :: rest, st) := by
  simp [parseStrings, hq]

theorem parseId_id (c : Char) (rest : List Char) (st : LexSt)
    (h : (isAlphaA c || c = '_') = false) : parseId (c :: rest) st = (c :: rest, st) := by
  simp [parseId, h]

theorem parseDoubleChars_id (c : Char) (rest : List Char) (st : LexSt)
    (h1 : ¬c = '=') (h2 : ¬c = '!') (h3 : ¬c = '>') (h4 : ¬c = '<') :
    parseDoubleChars (c :: rest) st = (c :: rest, st) := by
  simp only [parseDoubleChars]
  by_cases hr : rest.head? = some '='
  · simp [hr, h1, h2, h3, h4]
  · simp [hr]

theorem parseChars_id (c : Char) (rest : List Char) (st : LexSt)
    (h : isPunctA c = false) : parseChars (c :: rest) st = (c :: rest, st) := by
  simp [parseChars, h]

theorem parseNumbers_id (c : Char) (rest : List Char) (st : LexSt)
    (h : isDigitA c = false) : parseNumbers (c :: rest) st = (c :: rest, st) := by
  simp [parseNumbers, h]

theorem skipSpaces_id (c : Char) (rest : List Char) (h : ¬c = ' ') :
    skipSpaces (c :: rest) = c :: rest := by
  simp [skipSpaces, List.dropWhile_cons, h]

theorem parseNewLine_consume (rest : List Char) (st : LexSt) :
    (parseNewLine ('\n' :: rest) st).1.length ≤ rest.length := by
  simp only [parseNewLine, if_pos rfl]
  exact (parseIndent_suffix rest _).length_le

theorem parseStrings_consume (c : Char) (rest : List Char) (st : LexSt)
    (hq : c = '\'' ∨ c = '\"') (r : List Char) (st' : LexSt)
    (h : parseStrings (c :: rest) st = .ok (r, st')) : r.length ≤ rest.length := by
  simp only [parseStrings, hq, if_true] at h
  exact (scanString_suffix c rest "" st r st' h).length_le

theorem parseId_consume (c : Char) (rest : List Char) (st : LexSt)
    (h : (isAlphaA c || c = '_') = true) :
    (parseId (c :: rest) st).1.length ≤ rest.length := by
  have hpred : (isAlnumA c || c = '_') = true := by
    simp only [Bool.or_eq_true] at h ⊢
    rcases h with h | h
    · exact Or.inl (by simp [isAlnumA, h])
    · exact Or.inr h
  simp only [parseId, List.head?_cons, h, if_true]
  split <;>
    · simp only [List.dropWhile_cons, hpred, if_true]
      exact (List.dropWhile_suffix _).length_le

theorem parseChars_consume (c : Char) (rest : List Char) (st : LexSt)
    (h : isPunctA c = true) :
    (parseChars (c :: rest) st).1.length ≤ rest.length := by
  simp only [parseChars, h, if_true]
  by_cases hsh : c = '#'
  · simp only [if_pos hsh]
    exact (dropUntilNl_suffix rest).length_le
  · simp only [if_neg hsh]
    exact Nat.le_refl _

theorem parseNumbers_consume (c : Char) (rest : List Char) (st : LexSt)
    (h : isDigitA c = true) :
    (parseNumbers (c :: rest) st).1.length ≤ rest.length := by
  simp only [parseNumbers, List.head?_cons, h, if_true]
  simp only [List.dropWhile_cons, h, if_true]
  exact (List.dropWhile_suffix _).length_le

theorem skipSpaces_consume (rest : List Char) :
    (skipSpaces (' ' :: rest)).length ≤ rest.length := by
  have he : skipSpaces (' ' :: rest) = rest.dropWhile (fun c => c = ' ') := by
    simp [skipSpaces, List.dropWhile_cons]
  rw [he]
  exact (List.dropWhile_suffix _).length_le

theorem parseDoubleChars_cases (c : Char) (rest : List Char) (st : LexSt) :
    parseDoubleChars (c :: rest) st = (c :: rest, st) ∨
    (parseDoubleChars (c :: rest) st).1.length ≤ rest.length := by
  simp only [parseDoubleChars]
  by_cases hr : rest.head? = some '='
  · by_cases h1 : c = '='
    · right
      simp only [hr, if_true, if_pos h1]
      exact (List.tail_suffix rest).length_le
    · by_cases h2 : c = '!'
      · right
        simp only [hr, if_true, if_neg h1, if_pos h2]
        exact (List.tail_suffix rest).length_le
      · by_cases h3 : c = '>'
        · right
          simp only [hr, if_true, if_neg h1, if_neg h2, if_pos h3]
          exact (List.tail_suffix rest).length_le
        · by_cases h4 : c = '<'
          · right
            simp only [hr, if_true, if_neg h1, if_neg h2, if_neg h3, if_pos h4]
            exact (List.tail_suffix rest).length_le
          · left
            simp [hr, h1, h2, h3, h4]
  · left
    simp [hr]

theorem allHandled_suffix (l m : List Char) (h : allHandled l = true) (hm : m <:+ l) :
    allHandled m = true := by
  simp only [allHandled, List.all_eq_true] at h ⊢
  intro x hx
  exact h x (hm.subset hx)

theorem punct_of_digit_false (c : Char) (h : isDigitA c = true) : isPunctA c = false := by
  simp only [isDigitA, Bool.and_eq_true, decide_eq_true_eq] at h
  simp only [isPunctA, Bool.or_eq_false_iff, Bool.and_eq_false_iff,
    decide_eq_false_iff_not, not_le]
  omega

theorem runHandlers_progress (c : Char) (rest : List Char) (st : LexSt)
    (hc : isHandled c = true) (inp2 : List Char) (st2 : LexSt)
    (h : runHandlers (c :: rest) st = .ok (inp2, st2)) :
    inp2.length ≤ rest.length := by
  simp only [runHandlers] at h
  cases hps : parseStrings (parseNewLine (c :: rest) st).1 (parseNewLine (c :: rest) st).2 with
  | error m =>
    rw [hps] at h
    exact absurd h (by simp)
  | ok p2 =>
    rw [hps] at h
    simp only [Except.ok.injEq, Prod.mk.injEq] at h
    set q1 := parseNewLine (c :: rest) st with hq1
    set q3 := parseId p2.1 p2.2 with hq3
    set q4 := parseDoubleChars q3.1 q3.2 with hq4
    set q5 := parseChars q4.1 q4.2 with hq5
    set q6 := parseNumbers q5.1 q5.2 with hq6
    have l7 : inp2.length ≤ q6.1.length := by
      rw [← h.1]
      exact (skipSpaces_suffix _).length_le
    have l6 : q6.1.length ≤ q5.1.length := by
      rw [hq6]
      exact (parseNumbers_suffix _ _).length_le
    have l5 : q5.1.length ≤ q4.1.length := by
      rw [hq5]
      exact (parseChars_suffix _ _).length_le
    have l4 : q4.1.length ≤ q3.1.length := by
      rw [hq4]
      exact (parseDoubleChars_suffix _ _).length_le
    have l3 : q3.1.length ≤ p2.1.length := by
      rw [hq3]
      exact (parseId_suffix _ _).length_le
    have l2 : p2.1.length ≤ q1.1.length :=
      (parseStrings_suffix _ _ p2.1 p2.2 hps).length_le
    by_cases hnl : c = '\n'
    · subst hnl
      have b1 : q1.1.length ≤ rest.length := by
        rw [hq1]
        exact parseNewLine_consume rest st
      omega
    · have hid1 : q1 = (c :: rest, st) := by
        rw [hq1]
        exact parseNewLine_id c rest st hnl
      rw [hid1] at hps
      by_cases hq : c = '\'' ∨ c = '\"'
      · have b2 : p2.1.length ≤ rest.length :=
          parseStrings_consume c rest st hq p2.1 p2.2 hps
        omega
      · rw [parseStrings_id c rest st hq] at hps
        simp only [Except.ok.injEq] at hps
        have hp1 : p2.1 = c :: rest := by rw [← hps]
        by_cases halpha : (isAlphaA c || c = '_') = true
        · have b3 : q3.1.length ≤ rest.length := by
            rw [hq3, hp1]
            exact parseId_consume c rest _ halpha
          omega
        · have halpha2 : (isAlphaA c || c = '_') = false := by
            simpa using halpha
          have hq31 : q3.1 = c :: rest := by
            rw [hq3, hp1, parseId_id c rest _ halpha2]
          by_cases hdig : isDigitA c = true
          · have hne1 : ¬c = '=' := by
              rintro rfl
              exact absurd hdig (by decide)
            have hne2 : ¬c = '!' := by
              rintro rfl
              exact absurd hdig (by decide)
            have hne3 : ¬c = '>' := by
              rintro rfl
              exact absurd hdig (by decide)
            have hne4 : ¬c = '<' := by
              rintro rfl
              exact absurd hdig (by decide)
            have hq41 : q4.1 = c :: rest := by
              rw [hq4, hq31, parseDoubleChars_id c rest _ hne1 hne2 hne3 hne4]
            have hq51 : q5.1 = c :: rest := by
              rw [hq5, hq41, parseChars_id c rest _ (punct_of_digit_false c hdig)]
            have b6 : q6.1.length ≤ rest.length := by
              rw [hq6, hq51]
              exact parseNumbers_consume c rest _ hdig
            omega
          · by_cases hpunct : isPunctA c = true
            · rcases parseDoubleChars_cases c rest q3.2 with hcase | hcase
              · have hq41 : q4.1 = c :: rest := by
                  rw [hq4, hq31, hcase]
                have b5 : q5.1.length ≤ rest.length := by
                  rw [hq5, hq41]
                  exact parseChars_consume c rest _ hpunct
                omega
              · have b4 : q4.1.length ≤ rest.length := by
                  rw [hq4, hq31]
                  exact hcase
                omega
            · have hsp : c = ' ' := by
                have hq2 : ¬c = '\'' := fun hx => hq (Or.inl hx)
                have hq3x : ¬c = '\"' := fun hx => hq (Or.inr hx)
                have halpha3 : isAlphaA c = false ∧ (c = '_' → False) := by
                  simp only [Bool.or_eq_false_iff, decide_eq_false_iff_not] at halpha2
                  exact ⟨halpha2.1, halpha2.2⟩
                have hdig2 : isDigitA c = false := by simpa using hdig
                have hpunct2 : isPunctA c = false := by simpa using hpunct
                simp only [isHandled, hnl, hq2, hq3x, halpha3.1, hdig2, hpunct2,
                  Bool.or_eq_true, decide_eq_true_eq] at hc
                rcases hc with ((((((h1 | h1) | h1) | h1) | h1) | h1) | h1) | h1
                all_goals first
                  | exact h1
                  | contradiction
                  | exact absurd h1 halpha3.2
              have hne1 : ¬c = '=' := by
                rintro rfl
                exact absurd hsp (by decide)
              have hne2 : ¬c = '!' := by
                rintro rfl
                exact absurd hsp (by decide)
              have hne3 : ¬c = '>' := by
                rintro rfl
                exact absurd hsp (by decide)
              have hne4 : ¬c = '<' := by
                rintro rfl
                exact absurd hsp (by decide)
              have hpunct2 : isPunctA c = false := by simpa using hpunct
              have hdig2 : isDigitA c = false := by simpa using hdig
              have hq41 : q4.1 = c :: rest := by
                rw [hq4, hq31, parseDoubleChars_id c rest _ hne1 hne2 hne3 hne4]
              have hq51 : q5.1 = c :: rest := by
                rw [hq5, hq41, parseChars_id c rest _ hpunct2]
              have hq61 : q6.1 = c :: rest := by
                rw [hq6, hq51, parseNumbers_id c rest _ hdig2]
              have b7 : inp2.length ≤ rest.length := by
                rw [← h.1, hq61, hsp]
                exact skipSpaces_consume rest
              exact b7

theorem lexLoop_not_stuck (fuel : Nat) :
    ∀ (inp : List Char) (st : LexSt), allHandled inp = true → inp.length ≤ fuel →
      lexLoop fuel inp st ≠ .stuck := by
  induction fuel with
  | zero =>
    intro inp st _ hlen
    have hnil : inp = [] := List.length_eq_zero.mp (Nat.le_zero.mp hlen)
    subst hnil
    have he : lexLoop 0 ([] : List Char) st = .ok (finishToks st) := rfl
    rw [he]
    simp
  | succ fuel ih =>
    intro inp st hall hlen
    cases inp with
    | nil =>
      have he : lexLoop (fuel + 1) ([] : List Char) st = .ok (finishToks st) := rfl
      rw [he]
      simp
    | cons c rest =>
      have he : lexLoop (fuel + 1) (c :: rest) st =
          (match runHandlers (c :: rest) st with
           | .error m => .failed m
           | .ok (inp2, st2) =>
             if inp2.length < rest.length + 1 then lexLoop fuel inp2 st2
             else .stuck) := rfl
      rw [he]
      cases hrh : runHandlers (c :: rest) st with
      | error m => simp
      | ok p =>
        obtain ⟨inp2, st2⟩ := p
        dsimp only
        have hch : isHandled c = true := by
          simp only [allHandled, List.all_cons, Bool.and_eq_true] at hall
          exact hall.1
        have hle : inp2.length ≤ rest.length :=
          runHandlers_progress c rest st hch inp2 st2 hrh
        rw [if_pos (by omega : inp2.length < rest.length + 1)]
        have hsuf : inp2 <:+ c :: rest := runHandlers_suffix _ _ inp2 st2 hrh
        refine ih inp2 st2 (allHandled_suffix _ _ hall hsuf) ?_
        simp only [List.length_cons] at hlen
        omega

theorem lexLoop_ok_shape (fuel : Nat) :
    ∀ (inp : List Char) (st : LexSt) (toks : List Tok),
      lexLoop fuel inp st = .ok toks → ∃ st2, toks = finishToks st2 := by
  induction fuel with
  | zero =>
    intro inp st toks h
    cases inp with
    | nil =>
      refine ⟨st, ?_⟩
      have he : lexLoop 0 ([] : List Char) st = .ok (finishToks st) := rfl
      rw [he] at h
      simp only [LexResult.ok.injEq] at h
      exact h.symm
    | cons c rest => exact absurd h (by simp [lexLoop])
  | succ fuel ih =>
    intro inp st toks h
    cases inp with
    | nil =>
      refine ⟨st, ?_⟩
      have he : lexLoop (fuel + 1) ([] : List Char) st = .ok (finishToks st) := rfl
      rw [he] at h
      simp only [LexResult.ok.injEq] at h
      exact h.symm
    | cons c rest =>
      have he : lexLoop (fuel + 1) (c :: rest) st =
          (match runHandlers (c :: rest) st with
           | .error m => .failed m
           | .ok (inp2, st2) =>
             if inp2.length < rest.length + 1 then lexLoop fuel inp2 st2
             else .stuck) := rfl
      rw [he] at h
      cases hrh : runHandlers (c :: rest) st with
      | error m =>
        rw [hrh] at h
        exact absurd h (by simp)
      | ok p =>
        obtain ⟨inp2, st2⟩ := p
        rw [hrh] at h
        dsimp only at h
        by_cases hlt : inp2.length < rest.length + 1
        · rw [if_pos hlt] at h
          exact ih inp2 st2 toks h
        · rw [if_neg hlt] at h
          exact absurd h (by simp)

theorem finishToks_shape (st : LexSt) :
    finishToks st ≠ [] ∧ (finishToks st).getLast? = some Tok.eof ∧
    ∀ t, (finishToks st).dropLast.getLast? = some t →
      t = Tok.newline ∨ t = Tok.dedent := by
  unfold finishToks
  cases hlast : st.toks.getLast? with
  | none =>
    have hnil : st.toks = [] := List.getLast?_eq_none_iff.mp hlast
    rw [hnil]
    refine ⟨by simp, by simp, ?_⟩
    intro t ht
    simp at ht
  | some t0 =>
    by_cases ht : t0 = Tok.newline ∨ t0 = Tok.dedent
    · simp only [if_pos ht]
      refine ⟨by simp, by simp [List.getLast?_concat], ?_⟩
      intro t htl
      rw [List.dropLast_concat] at htl
      rw [hlast] at htl
      injection htl with htl2
      rw [← htl2]
      exact ht
    · simp only [if_neg ht]
      refine ⟨by simp, by simp [List.getLast?_concat], ?_⟩
      intro t htl
      rw [List.dropLast_concat] at htl
      rw [List.getLast?_concat] at htl
      injection htl with htl2
      exact Or.inl htl2.symm

/-- Claim C5 (amended): on every input all of whose characters are ones
some lexer helper handles (newline, quote, letter, underscore, digit,
ASCII punctuation or space), the token loop never gets stuck, and
whenever it yields a token sequence, that sequence is non-empty, ends in
`Eof`, and the token just before `Eof`, when one exists, is `Newline` or
`Dedent` (the trailing `Newline` having been supplied when the last
emitted token was neither). -/
theorem claim_C5_amended (inp : List Char) (h : allHandled inp = true) :
    lex inp ≠ .stuck ∧
    ∀ toks, lex inp = .ok toks →
      toks ≠ [] ∧ toks.getLast? = some Tok.eof ∧
      ∀ t, toks.dropLast.getLast? = some t → t = Tok.newline ∨ t = Tok.dedent := by
  constructor
  · exact lexLoop_not_stuck inp.length inp ⟨[], 0⟩ h (Nat.le_refl _)
  · intro toks htoks
    obtain ⟨st2, rfl⟩ := lexLoop_ok_shape inp.length inp ⟨[], 0⟩ toks htoks
    exact finishToks_shape st2

/-- Claim C5 amended, witness on the input `x=1`. -/
theorem claim_C5_witness :
    allHandled "x=1".toList = true ∧
    lex "x=1".toList ≠ .stuck ∧
    ([Tok.id "x", Tok.charTok '=', Tok.number 1, Tok.newline, Tok.eof] ≠ ([] : List Tok) ∧
      ([Tok.id "x", Tok.charTok '=', Tok.number 1, Tok.newline,
        Tok.eof] : List Tok).getLast? = some Tok.eof ∧
      ∀ t, ([Tok.id "x", Tok.charTok '=', Tok.number 1, Tok.newline,
          Tok.eof] : List Tok).dropLast.getLast? = some t →
        t = Tok.newline ∨ t = Tok.dedent) :=
  ⟨rfl, (claim_C5_amended "x=1".toList rfl).1,
    (claim_C5_amended "x=1".toList rfl).2 _ rfl⟩

end Mython
